import Mathlib

/-!
Verification development for the Life Atlas memory-mapping application
(`app.js`).  The application keeps an ordered list of memory records,
mirrors each record to a map marker, and persists the list to browser
local storage.  We give a shallow embedding of the state-manipulating
functions of the `LifeAtlas` class and prove (or refute) the specified
properties about them.

Modelling conventions:
* JavaScript numbers are modelled as `Int` (ids come from `Date.now()`,
  which is integral; the coordinates used in concrete examples are
  integral as well).
* The wall clock (`Date.now()`, `new Date().toISOString()`) is passed in
  as explicit arguments `now` / `nowIso`.
* DOM-only effects (focus, CSS, toasts' text, ripple animation) are not
  modelled; user-visible outcomes (success toast, validation alert,
  silent return, uncaught exception) are distinguished by the result
  constructors of each operation.
* The Leaflet `Map`/`Marker` objects are opaque: we track the key set of
  the `this.pins` JavaScript `Map` (field `pins`, insertion ordered) and
  the set of ids whose marker is currently attached to the map surface
  (field `visible`).
* `localStorage` is modelled by the `storage` field holding the last
  persisted collection; the quota-exceeded branch of `saveToStorage`
  (which leaves in-memory state updated) is not needed by any claim and
  is not modelled.
* An uncaught JavaScript `TypeError` (reading a property of `undefined`)
  is modelled by a dedicated `crashed` result constructor that carries
  the state at the moment the exception is thrown.
-/

namespace LifeAtlas

/-- A memory record, as built by `saveMemory` in `app.js`:
`{ id, title, date, description, mood, lat, lng, createdAt }`. -/
structure Memory where
  id : Int
  title : String
  date : String
  description : String
  mood : String
  lat : Int
  lng : Int
  createdAt : String
deriving DecidableEq, Repr

/-- The creation/edit form contents read at the top of `saveMemory`:
the raw `#memoryTitle`, `#memoryDate`, `#memoryDescription` values and
the optional `.mood-option.selected` element's `data-mood`. -/
structure MemoryForm where
  title : String
  date : String
  description : String
  selectedMood : Option String
deriving DecidableEq, Repr

/-- The mutable fields of the `LifeAtlas` class instance that the
modelled operations read or write, together with the marker bookkeeping
and the persisted snapshot. -/
structure AtlasState where
  memories : List Memory
  pins : List Int
  visible : List Int
  storage : List Memory
  currentMemoryId : Option Int
  editingMemory : Bool
  currentPin : Option (Int × Int)
  addingMemory : Bool
deriving DecidableEq, Repr

/-- Insertion into a JavaScript `Map` key list (or a marker id onto the
map surface): `set` with an existing key overwrites in place, so the key
list is unchanged; a new key goes to the end. -/
def keyInsert (keys : List Int) (i : Int) : List Int :=
  if i ∈ keys then keys else keys ++ [i]

/-- Translation of `addPinToMap(memory)`: a marker is built, added to the
map, and registered under `memory.id` in `this.pins`.  (When a key is
overwritten, the previously registered marker object is simply dropped
from the cache; the id-level `visible` set does not change.) -/
def addPinToMap (st : AtlasState) (m : Memory) : AtlasState :=
  { st with pins := keyInsert st.pins m.id, visible := keyInsert st.visible m.id }

/-- Translation of `closeModal()` (the form reset touches only the DOM). -/
def closeModal (st : AtlasState) : AtlasState :=
  { st with currentPin := none, editingMemory := false, currentMemoryId := none }

/-- Translation of `closeDetailModal()`. -/
def closeDetailModal (st : AtlasState) : AtlasState :=
  { st with currentMemoryId := none }

/-- Translation of `saveToStorage()`: writes the whole collection under
the `lifeAtlasMemories` key. -/
def saveToStorage (st : AtlasState) : AtlasState :=
  { st with storage := st.memories }

/-- JavaScript `String.prototype.trim()`: strips leading and trailing
whitespace (modelled with `Char.isWhitespace`, which covers the blank,
tab and line-break characters form fields can contain). -/
def jsTrim (s : String) : String :=
  String.mk (((s.data.dropWhile Char.isWhitespace).reverse.dropWhile
    Char.isWhitespace).reverse)

/-- Possible outcomes of submitting the memory form (`saveMemory`). -/
inductive SaveResult where
  /-- Record stored, marker placed, modal closed, success toast shown. -/
  | saved (st : AtlasState)
  /-- A required field was blank: `alert(...)` and an early `return`. -/
  | invalid (st : AtlasState)
  /-- An uncaught `TypeError` escaped; `st` is the state at the throw. -/
  | crashed (st : AtlasState)
deriving DecidableEq, Repr

/-- State carried by a `SaveResult`, whichever way the call ended. -/
def SaveResult.state : SaveResult → AtlasState
  | .saved st => st
  | .invalid st => st
  | .crashed st => st

/-- Translation of `saveMemory()`.  Reads the form, validates, builds the
record object and either replaces the record being edited or appends a
new one.  Two property accesses can throw: `this.currentPin.lat` when no
pin position is set, and `this.memories.find(...).createdAt` (and later
`this.pins.get(...).remove()`) when `this.currentMemoryId` matches no
record / no cached marker.  The object literal evaluates `lat` before
`createdAt`, so a missing pin position throws first. -/
def saveMemory (st : AtlasState) (form : MemoryForm) (now : Int)
    (nowIso : String) : SaveResult :=
  let title := jsTrim form.title
  let date := form.date
  let description := jsTrim form.description
  let mood := form.selectedMood.getD "📍"
  if title = "" ∨ date = "" ∨ description = "" then
    .invalid st
  else
    match st.currentPin with
    | none => .crashed st
    | some (lat, lng) =>
      if st.editingMemory then
        match st.memories.find? (fun m => st.currentMemoryId = some m.id) with
        | none => .crashed st
        | some orig =>
          let mem : Memory :=
            { id := orig.id, title := title, date := date,
              description := description, mood := mood, lat := lat,
              lng := lng, createdAt := orig.createdAt }
          let idx := st.memories.findIdx (fun m => st.currentMemoryId = some m.id)
          let st1 := { st with memories := st.memories.set idx mem }
          if orig.id ∈ st.pins then
            let st2 := { st1 with visible := st1.visible.erase orig.id }
            .saved (closeModal (addPinToMap (saveToStorage st2) mem))
          else
            .crashed st1
      else
        let mem : Memory :=
          { id := now, title := title, date := date,
            description := description, mood := mood, lat := lat,
            lng := lng, createdAt := nowIso }
        let st1 := { st with memories := st.memories ++ [mem] }
        .saved (closeModal (addPinToMap (saveToStorage st1) mem))

/-- Translation of `showMemoryDetail(memoryId)`: bails out when the id
matches no record, otherwise opens the detail modal and remembers the id. -/
def showMemoryDetail (st : AtlasState) (memoryId : Int) : AtlasState :=
  match st.memories.find? (fun m => m.id = memoryId) with
  | none => st
  | some _ => { st with currentMemoryId := some memoryId }

/-- Translation of `editMemory()`: bails out when `currentMemoryId`
matches no record; otherwise stores the record's position as the current
pin, switches to editing mode, closes the detail modal (which resets
`currentMemoryId` to `null`!) and opens the form modal. -/
def editMemory (st : AtlasState) : AtlasState :=
  match st.memories.find? (fun m => st.currentMemoryId = some m.id) with
  | none => st
  | some m =>
    closeDetailModal
      { st with currentPin := some (m.lat, m.lng), editingMemory := true }

/-- Possible outcomes of `deleteMemory()`. -/
inductive DeleteResult where
  /-- The confirmation dialog was declined; nothing happens. -/
  | cancelled (st : AtlasState)
  /-- Record and marker removed, persisted, success toast shown. -/
  | deleted (st : AtlasState)
  /-- `findIndex` returned `-1`: the body is skipped with no message. -/
  | silent (st : AtlasState)
  /-- `this.pins.get(id)` was `undefined` and `.remove()` threw. -/
  | crashed (st : AtlasState)
deriving DecidableEq, Repr

/-- State carried by a `DeleteResult`. -/
def DeleteResult.state : DeleteResult → AtlasState
  | .cancelled st => st
  | .deleted st => st
  | .silent st => st
  | .crashed st => st

/-- Translation of `deleteMemory()`: after confirmation, looks up
`currentMemoryId`; when found it removes the cached marker, deletes the
`pins` entry, splices the record out, persists and closes the detail
modal.  When not found the whole body is skipped silently. -/
def deleteMemory (st : AtlasState) (confirmed : Bool) : DeleteResult :=
  if confirmed then
    match st.memories.find? (fun m => st.currentMemoryId = some m.id) with
    | none => .silent st
    | some orig =>
      if orig.id ∈ st.pins then
        let idx := st.memories.findIdx (fun m => st.currentMemoryId = some m.id)
        .deleted (closeDetailModal (saveToStorage
          { st with pins := st.pins.erase orig.id,
                    visible := st.visible.erase orig.id,
                    memories := st.memories.eraseIdx idx }))
      else
        .crashed st
  else
    .cancelled st

/-- Helper for `loadMemories()`: pins each record of the list in order. -/
def loadMemoriesGo : List Memory → AtlasState → AtlasState
  | [], st => st
  | m :: rest, st => loadMemoriesGo rest (addPinToMap st m)

/-- Translation of `loadMemories()`: adds a pin for every record of the
current collection. -/
def loadMemories (st : AtlasState) : AtlasState :=
  loadMemoriesGo st.memories st

/-- Translation of the success path of `importMemories(file)` once the
parsed input is known to be an array of records (the structure-level
model; the text-level model including parsing lives below): all cached
markers are removed and the cache cleared, the collection is replaced
wholesale, persisted, and the pins are rebuilt.  No per-record
validation (in particular no id-uniqueness check) is performed. -/
def importMemories (st : AtlasState) (imported : List Memory) : AtlasState :=
  loadMemories (saveToStorage
    { st with pins := [],
              visible := st.visible.filter (fun i => i ∉ st.pins),
              memories := imported })

/-- Translation of the map-click handler `createMemoryAt(latlng)`:
remembers the clicked position and leaves adding mode. -/
def createMemoryAt (st : AtlasState) (lat lng : Int) : AtlasState :=
  { st with currentPin := some (lat, lng), addingMemory := false }

/-- Visibility decision of `applyFilters` for one record: start with
`show = true`, clear it when a non-empty mood filter mismatches or the
record's date string falls outside a non-empty bound (JavaScript `<`/`>`
on the `YYYY-MM-DD` strings). -/
def memoryShown (moodF dateFrom dateTo : String) (m : Memory) : Bool :=
  (moodF = "" ∨ m.mood = moodF) ∧
    (dateFrom = "" ∨ ¬ m.date < dateFrom) ∧ (dateTo = "" ∨ ¬ dateTo < m.date)

/-- Result of `applyFilters`: either every marker was toggled, or the
record lookup for some pin id produced `undefined` and `memory.mood`
threw (the state at the throw is carried). -/
inductive FilterResult where
  | done (st : AtlasState)
  | crashed (st : AtlasState)
deriving DecidableEq, Repr

/-- State carried by a `FilterResult`. -/
def FilterResult.state : FilterResult → AtlasState
  | .done st => st
  | .crashed st => st

/-- Helper for `applyFilters`: iterate over the pin keys, look each
record up with `this.memories.find(m => m.id === id)` and toggle the
marker on or off the map. -/
def applyFiltersGo (moodF dateFrom dateTo : String) :
    List Int → AtlasState → FilterResult
  | [], st => .done st
  | i :: rest, st =>
    match st.memories.find? (fun m => m.id = i) with
    | none => .crashed st
    | some m =>
      if memoryShown moodF dateFrom dateTo m then
        applyFiltersGo moodF dateFrom dateTo rest
          { st with visible := keyInsert st.visible i }
      else
        applyFiltersGo moodF dateFrom dateTo rest
          { st with visible := st.visible.erase i }

/-- Translation of `applyFilters()` with the three filter control values
(an empty string is the "no filter" value of each control). -/
def applyFilters (st : AtlasState) (moodF dateFrom dateTo : String) :
    FilterResult :=
  applyFiltersGo moodF dateFrom dateTo st.pins st

/-- Translation of `clearFilters()`: every cached marker is added back to
the map. -/
def clearFilters (st : AtlasState) : AtlasState :=
  { st with visible := st.pins.foldl keyInsert st.visible }

/-- Ids of the records of a collection, in order. -/
def idsOf (l : List Memory) : List Int := l.map (fun m => m.id)

/-!
JSON value model.  `exportMemories` and `importMemories` in `app.js` go
through the browser's `JSON.stringify` / `JSON.parse`.  We model JSON
documents by the `JSValue` type and implement a serializer and a parser
for it, proving the codec round-trip that the pair satisfies (the
behaviour `importMemories` relies on when re-reading an exported file).
Deviations from the full browser API, none of which matters to the
claims: numbers are integers (the repository's ids and timestamps are;
fractional coordinates are outside the embedding), `JSON.stringify`'s
third argument in `exportMemories` only inserts indentation whitespace
(which `JSON.parse` skips), and only the common string escapes are
implemented.
-/


def lbrace : Char := Char.ofNat 123

def rbrace : Char := Char.ofNat 125

def isWsChar (c : Char) : Bool := c = ' ' || c = '\n' || c = '\t' || c = '\r'

def skipWs (cs : List Char) : List Char := cs.dropWhile isWsChar

def isDigitChar (c : Char) : Bool := '0' ≤ c && c ≤ '9'

def digitToChar : Nat → Char
  | 0 => '0' | 1 => '1' | 2 => '2' | 3 => '3' | 4 => '4'
  | 5 => '5' | 6 => '6' | 7 => '7' | 8 => '8' | _ => '9'

def charVal (c : Char) : Nat := c.toNat - 48

def natCharsAux : Nat → Nat → List Char → List Char
  | 0, _, acc => acc
  | fuel + 1, n, acc =>
    if n = 0 then acc else natCharsAux fuel (n / 10) (digitToChar (n % 10) :: acc)

def natChars (n : Nat) : List Char :=
  if n = 0 then ['0'] else natCharsAux n n []

def intChars (i : Int) : List Char :=
  if i < 0 then '-' :: natChars i.natAbs else natChars i.natAbs

def digitsVal (ds : List Char) : Nat := ds.foldl (fun a c => 10 * a + charVal c) 0

-- auxiliary: the fuel recursion computes the base-10 digit characters
theorem natCharsAux_eq : ∀ (fuel n : Nat) (acc : List Char), n ≤ fuel →
    natCharsAux fuel n acc = ((Nat.digits 10 n).map digitToChar).reverse ++ acc := by
  intro fuel
  induction fuel with
  | zero => intro n acc h; interval_cases n; simp [natCharsAux]
  | succ fuel ih =>
    intro n acc h
    by_cases hn : n = 0
    · simp [natCharsAux, hn]
    · have hdiv : n / 10 ≤ fuel := by
        have := Nat.div_lt_self (Nat.pos_of_ne_zero hn) (by norm_num : 1 < 10)
        omega
      rw [natCharsAux, if_neg hn, ih (n / 10) _ hdiv,
        Nat.digits_def' (by norm_num : 1 < 10) (Nat.pos_of_ne_zero hn)]
      simp

theorem natChars_eq (n : Nat) :
    natChars n = if n = 0 then ['0'] else ((Nat.digits 10 n).map digitToChar).reverse := by
  by_cases hn : n = 0
  · simp [natChars, hn]
  · simp [natChars, hn, natCharsAux_eq n n [] (le_refl n)]

theorem digitToChar_isDigit (d : Nat) : isDigitChar (digitToChar d) = true := by
  unfold digitToChar
  split <;> decide

theorem charVal_digitToChar (d : Nat) (h : d < 10) : charVal (digitToChar d) = d := by
  interval_cases d <;> decide

theorem natChars_digits (n : Nat) : ∀ c ∈ natChars n, isDigitChar c = true := by
  rw [natChars_eq]
  by_cases hn : n = 0
  · simp [hn]; decide
  · simp only [if_neg hn, List.mem_reverse, List.mem_map]
    rintro c ⟨d, _, rfl⟩
    exact digitToChar_isDigit d

theorem natChars_ne_nil (n : Nat) : natChars n ≠ [] := by
  rw [natChars_eq]
  by_cases hn : n = 0
  · simp [hn]
  · simp only [if_neg hn]
    intro hcon
    rw [List.reverse_eq_nil_iff, List.map_eq_nil_iff, Nat.digits_eq_nil_iff_eq_zero] at hcon
    exact hn hcon

theorem foldl_digits (L : List Nat) (hL : ∀ d ∈ L, d < 10) : ∀ (a : Nat),
    List.foldl (fun x c => 10 * x + charVal c) a ((L.map digitToChar).reverse)
      = a * 10 ^ L.length + Nat.ofDigits 10 L := by
  induction L with
  | nil => intro a; simp
  | cons d T ih =>
    intro a
    have hd : d < 10 := hL d (by simp)
    have hT : ∀ x ∈ T, x < 10 := fun x hx => hL x (by simp [hx])
    simp only [List.map_cons, List.reverse_cons, List.foldl_append, List.foldl_cons,
      List.foldl_nil, ih hT a, Nat.ofDigits_cons, List.length_cons,
      charVal_digitToChar d hd]
    ring

theorem digitsVal_natChars (n : Nat) : digitsVal (natChars n) = n := by
  rw [natChars_eq]
  by_cases hn : n = 0
  · simp [hn, digitsVal, charVal]
  · rw [if_neg hn]
    unfold digitsVal
    rw [foldl_digits _ (fun d hd => Nat.digits_lt_base (by norm_num) hd) 0]
    simp [Nat.ofDigits_digits]

def numOk : List Char → Prop
  | [] => True
  | c :: _ => isDigitChar c = false

def readNat (cs : List Char) : Option (Nat × List Char) :=
  let ds := cs.takeWhile isDigitChar
  if ds = [] then none else some (digitsVal ds, cs.dropWhile isDigitChar)

def readNum (cs : List Char) : Option (Int × List Char) :=
  match cs with
  | [] => none
  | c :: rest =>
    if c = '-' then (readNat rest).map (fun p => (-(p.1 : Int), p.2))
    else (readNat (c :: rest)).map (fun p => ((p.1 : Int), p.2))

theorem takeWhile_digits_append (ds : List Char) (hds : ∀ c ∈ ds, isDigitChar c = true) :
    ∀ rest : List Char, numOk rest →
      (ds ++ rest).takeWhile isDigitChar = ds ∧
        (ds ++ rest).dropWhile isDigitChar = rest := by
  induction ds with
  | nil =>
    intro rest hrest
    cases rest with
    | nil => simp
    | cons c t => simp only [numOk] at hrest; simp [hrest]
  | cons c t ih =>
    intro rest hrest
    have hc : isDigitChar c = true := hds c (by simp)
    have := ih (fun x hx => hds x (by simp [hx])) rest hrest
    simp [List.takeWhile_cons, List.dropWhile_cons, hc, this.1, this.2]

theorem readNat_natChars (n : Nat) (rest : List Char) (h : numOk rest) :
    readNat (natChars n ++ rest) = some (n, rest) := by
  obtain ⟨h1, h2⟩ := takeWhile_digits_append (natChars n) (natChars_digits n) rest h
  rw [readNat]
  simp only [h1, h2, if_neg (natChars_ne_nil n), digitsVal_natChars]

theorem natChars_head (n : Nat) :
    ∃ c t, natChars n = c :: t ∧ isDigitChar c = true := by
  cases hc : natChars n with
  | nil => exact absurd hc (natChars_ne_nil n)
  | cons c t =>
    refine ⟨c, t, rfl, natChars_digits n c ?_⟩
    rw [hc]; exact List.mem_cons_self c t

theorem digit_not_ws {c : Char} (h : isDigitChar c = true) : isWsChar c = false := by
  cases hw : isWsChar c
  · rfl
  · exfalso
    simp only [isWsChar, Bool.or_eq_true, decide_eq_true_eq] at hw
    rcases hw with ((rfl | rfl) | rfl) | rfl <;> exact absurd h (by decide)

theorem digit_ne {c : Char} (h : isDigitChar c = true) :
    c ≠ '-' ∧ c ≠ 'n' ∧ c ≠ 't' ∧ c ≠ 'f' ∧ c ≠ '"' ∧ c ≠ '[' ∧ c ≠ lbrace ∧
      c ≠ ']' ∧ c ≠ ',' ∧ c ≠ rbrace ∧ c ≠ ':' := by
  refine ⟨?_, ?_, ?_, ?_, ?_, ?_, ?_, ?_, ?_, ?_, ?_⟩ <;>
    (intro h2; rw [h2] at h; exact absurd h (by decide))

theorem readNum_intChars (i : Int) (rest : List Char) (h : numOk rest) :
    readNum (intChars i ++ rest) = some (i, rest) := by
  by_cases hi : i < 0
  · rw [intChars, if_pos hi]
    simp only [List.cons_append, readNum, if_pos rfl, readNat_natChars _ _ h]
    have hval : -((i.natAbs : Int)) = i := by omega
    simp [hval, abs_of_neg hi]
  · rw [intChars, if_neg hi]
    obtain ⟨c, t, hct, hc⟩ := natChars_head i.natAbs
    have hne : c ≠ '-' := (digit_ne hc).1
    have harg : readNat (c :: (t ++ rest)) = some (i.natAbs, rest) := by
      have := readNat_natChars i.natAbs rest h
      rwa [hct, List.cons_append] at this
    rw [hct, List.cons_append, readNum, if_neg hne, harg]
    have hval : ((i.natAbs : Int)) = i := by omega
    simp [hval]

theorem skipWs_cons {c : Char} (t : List Char) (h : isWsChar c = false) :
    skipWs (c :: t) = c :: t := by
  simp [skipWs, List.dropWhile_cons, h]

def escChar (c : Char) : List Char :=
  if c = '"' then ['\\', '"']
  else if c = '\\' then ['\\', '\\']
  else if c = '\n' then ['\\', 'n']
  else if c = '\t' then ['\\', 't']
  else if c = '\r' then ['\\', 'r']
  else [c]

def escChars : List Char → List Char
  | [] => []
  | c :: cs => escChar c ++ escChars cs

def unescChar (c : Char) : Option Char :=
  if c = '"' then some '"'
  else if c = '\\' then some '\\'
  else if c = '/' then some '/'
  else if c = 'n' then some '\n'
  else if c = 't' then some '\t'
  else if c = 'r' then some '\r'
  else none

def readStr : List Char → Option (List Char × List Char)
  | [] => none
  | '"' :: rest => some ([], rest)
  | '\\' :: rest =>
    match rest with
    | [] => none
    | e :: rest2 =>
      match unescChar e with
      | none => none
      | some c => (readStr rest2).map (fun p => (c :: p.1, p.2))
  | c :: rest => (readStr rest).map (fun p => (c :: p.1, p.2))

theorem readStr_cons_plain {c : Char} (t : List Char) (hq : c ≠ '"') (hb : c ≠ '\\') :
    readStr (c :: t) = (readStr t).map (fun p => (c :: p.1, p.2)) := by
  rw [readStr.eq_def]
  split
  · rename_i heq; cases heq
  · rename_i heq
    injection heq with h1 _
    exact absurd h1 hq
  · rename_i heq
    injection heq with h1 _
    exact absurd h1 hb
  · rename_i c2 t2 _ _ heq
    injection heq with h1 h2
    rw [h1, h2]

theorem readStr_escChars : ∀ (cs rest : List Char),
    readStr (escChars cs ++ '"' :: rest) = some (cs, rest) := by
  intro cs
  induction cs with
  | nil => intro rest; simp [escChars, readStr]
  | cons c t ih =>
    intro rest
    by_cases h1 : c = '"'
    · subst h1; simp [escChars, escChar, readStr, unescChar, ih rest]
    · by_cases h2 : c = '\\'
      · subst h2; simp [escChars, escChar, readStr, unescChar, ih rest]
      · by_cases h3 : c = '\n'
        · subst h3; simp [escChars, escChar, readStr, unescChar, ih rest]
        · by_cases h4 : c = '\t'
          · subst h4; simp [escChars, escChar, readStr, unescChar, ih rest]
          · by_cases h5 : c = '\r'
            · subst h5; simp [escChars, escChar, readStr, unescChar, ih rest]
            · simp only [escChars, escChar, if_neg h1, if_neg h2, if_neg h3, if_neg h4,
                if_neg h5, List.cons_append, List.nil_append]
              rw [readStr_cons_plain _ h1 h2]
              simp [ih rest]

inductive JSValue where
  | null
  | bool (b : Bool)
  | num (n : Int)
  | str (s : String)
  | arr (elems : List JSValue)
  | obj (fields : List (String × JSValue))
deriving Repr

mutual
def jeq : JSValue → JSValue → Bool
  | .null, .null => true
  | .bool a, .bool b => a = b
  | .num a, .num b => a = b
  | .str a, .str b => a = b
  | .arr xs, .arr ys => jeqList xs ys
  | .obj fs, .obj gs => jeqFields fs gs
  | _, _ => false
def jeqList : List JSValue → List JSValue → Bool
  | [], [] => true
  | x :: xs, y :: ys => jeq x y && jeqList xs ys
  | _, _ => false
def jeqFields : List (String × JSValue) → List (String × JSValue) → Bool
  | [], [] => true
  | (k, v) :: fs, (l, w) :: gs => decide (k = l) && jeq v w && jeqFields fs gs
  | _, _ => false
end

mutual
theorem jeq_iff : ∀ a b : JSValue, jeq a b = true ↔ a = b
  | .null, b => by cases b <;> simp [jeq]
  | .bool a, b => by cases b <;> simp [jeq]
  | .num a, b => by cases b <;> simp [jeq]
  | .str a, b => by cases b <;> simp [jeq]
  | .arr xs, b => by
    cases b <;> simp [jeq]
    exact jeqList_iff xs _
  | .obj fs, b => by
    cases b <;> simp [jeq]
    exact jeqFields_iff fs _
theorem jeqList_iff : ∀ xs ys : List JSValue, jeqList xs ys = true ↔ xs = ys
  | [], ys => by cases ys <;> simp [jeqList]
  | x :: xs, ys => by
    cases ys with
    | nil => simp [jeqList]
    | cons y ys => simp [jeqList, jeq_iff x y, jeqList_iff xs ys]
theorem jeqFields_iff :
    ∀ fs gs : List (String × JSValue), jeqFields fs gs = true ↔ fs = gs
  | [], gs => by cases gs <;> simp [jeqFields]
  | (k, v) :: fs, gs => by
    cases gs with
    | nil => simp [jeqFields]
    | cons g gs =>
      obtain ⟨l, w⟩ := g
      simp [jeqFields, jeq_iff v w, jeqFields_iff fs gs, and_assoc]
end

instance : DecidableEq JSValue := fun a b => decidable_of_iff _ (jeq_iff a b)

mutual
def valChars : JSValue → List Char
  | .null => "null".data
  | .bool true => "true".data
  | .bool false => "false".data
  | .num n => intChars n
  | .str s => '"' :: (escChars s.data ++ ['"'])
  | .arr [] => ['[', ']']
  | .arr (x :: xs) => '[' :: (valChars x ++ (arrTailChars xs ++ [']']))
  | .obj [] => [lbrace, rbrace]
  | .obj (f :: fs) => lbrace :: (memberChars f ++ (membersTailChars fs ++ [rbrace]))
def memberChars : String × JSValue → List Char
  | (k, v) => '"' :: (escChars k.data ++ ('"' :: (':' :: valChars v)))
def arrTailChars : List JSValue → List Char
  | [] => []
  | x :: xs => ',' :: (valChars x ++ arrTailChars xs)
def membersTailChars : List (String × JSValue) → List Char
  | [] => []
  | f :: fs => ',' :: (memberChars f ++ membersTailChars fs)
end

def jsonStringify (v : JSValue) : String := String.mk (valChars v)

mutual
def parseVal : Nat → List Char → Option (JSValue × List Char)
  | 0, _ => none
  | fuel + 1, cs =>
    match skipWs cs with
    | [] => none
    | c :: rest =>
      if c = 'n' then
        match rest with
        | 'u' :: 'l' :: 'l' :: r => some (.null, r)
        | _ => none
      else if c = 't' then
        match rest with
        | 'r' :: 'u' :: 'e' :: r => some (.bool true, r)
        | _ => none
      else if c = 'f' then
        match rest with
        | 'a' :: 'l' :: 's' :: 'e' :: r => some (.bool false, r)
        | _ => none
      else if c = '"' then
        (readStr rest).map (fun p => (.str (String.mk p.1), p.2))
      else if c = '[' then
        match skipWs rest with
        | [] => none
        | c2 :: rest2 =>
          if c2 = ']' then some (.arr [], rest2)
          else
            match parseVal fuel rest with
            | none => none
            | some (x, restx) =>
              match parseArrTail fuel restx with
              | none => none
              | some (xs, rest3) => some (.arr (x :: xs), rest3)
      else if c = lbrace then
        match skipWs rest with
        | [] => none
        | c2 :: rest2 =>
          if c2 = rbrace then some (.obj [], rest2)
          else
            match parseMembers fuel (c2 :: rest2) with
            | none => none
            | some (fs, rest3) => some (.obj fs, rest3)
      else
        (readNum (c :: rest)).map (fun p => (.num p.1, p.2))
def parseArrTail : Nat → List Char → Option (List JSValue × List Char)
  | 0, _ => none
  | fuel + 1, cs =>
    match skipWs cs with
    | [] => none
    | c :: rest =>
      if c = ']' then some ([], rest)
      else if c = ',' then
        match parseVal fuel rest with
        | none => none
        | some (x, restx) =>
          match parseArrTail fuel restx with
          | none => none
          | some (xs, rest3) => some (x :: xs, rest3)
      else none
def parseMembers : Nat → List Char → Option (List (String × JSValue) × List Char)
  | 0, _ => none
  | fuel + 1, cs =>
    match skipWs cs with
    | [] => none
    | c :: rest =>
      if c = '"' then
        match readStr rest with
        | none => none
        | some (k, rest1) =>
          match skipWs rest1 with
          | [] => none
          | c1 :: rest2 =>
            if c1 = ':' then
              match parseVal fuel rest2 with
              | none => none
              | some (v, rest3) =>
                match skipWs rest3 with
                | [] => none
                | c2 :: rest4 =>
                  if c2 = ',' then
                    match parseMembers fuel rest4 with
                    | none => none
                    | some (fs, rest5) => some ((String.mk k, v) :: fs, rest5)
                  else if c2 = rbrace then some ([(String.mk k, v)], rest4)
                  else none
            else none
      else none
end

def jsonParse (s : String) : Option JSValue :=
  match parseVal (s.data.length + 1) s.data with
  | none => none
  | some (v, rest) => if skipWs rest = [] then some v else none

theorem stringMk_data (s : String) : String.mk s.data = s := by
  cases s
  rfl

theorem valChars_head (v : JSValue) :
    ∃ c t, valChars v = c :: t ∧ isWsChar c = false ∧ c ≠ ']' := by
  cases v with
  | null => exact ⟨'n', _, rfl, by decide, by decide⟩
  | bool b => cases b with
    | true => exact ⟨'t', _, rfl, by decide, by decide⟩
    | false => exact ⟨'f', _, rfl, by decide, by decide⟩
  | str s => exact ⟨'"', _, rfl, by decide, by decide⟩
  | num i =>
    by_cases hi : i < 0
    · refine ⟨'-', natChars i.natAbs, ?_, by decide, by decide⟩
      simp [valChars, intChars, hi]
    · obtain ⟨c, t, hct, hc⟩ := natChars_head i.natAbs
      refine ⟨c, t, ?_, digit_not_ws hc, (digit_ne hc).2.2.2.2.2.2.2.1⟩
      simp [valChars, intChars, hi, hct]
  | arr xs => cases xs with
    | nil => exact ⟨'[', _, rfl, by decide, by decide⟩
    | cons x xs => exact ⟨'[', _, rfl, by decide, by decide⟩
  | obj fs => cases fs with
    | nil => exact ⟨lbrace, _, rfl, by decide, by decide⟩
    | cons f fs => exact ⟨lbrace, _, rfl, by decide, by decide⟩

theorem numOk_arrTail (xs : List JSValue) (r : List Char) :
    numOk (arrTailChars xs ++ ']' :: r) := by
  cases xs with
  | nil => simp only [arrTailChars, List.nil_append]; exact (by decide : isDigitChar ']' = false)
  | cons x t => simp only [arrTailChars, List.cons_append]; exact (by decide : isDigitChar ',' = false)

theorem numOk_membersTail (fs : List (String × JSValue)) (r : List Char) :
    numOk (membersTailChars fs ++ rbrace :: r) := by
  cases fs with
  | nil =>
    simp only [membersTailChars, List.nil_append]
    exact (by decide : isDigitChar rbrace = false)
  | cons f t =>
    simp only [membersTailChars, List.cons_append]
    exact (by decide : isDigitChar ',' = false)

theorem parse_rt (fuel : Nat) :
    (∀ (v : JSValue) (rest : List Char), numOk rest → (valChars v).length < fuel →
      parseVal fuel (valChars v ++ rest) = some (v, rest)) ∧
    (∀ (xs : List JSValue) (rest : List Char), (arrTailChars xs).length < fuel →
      parseArrTail fuel (arrTailChars xs ++ (']' :: rest)) = some (xs, rest)) ∧
    (∀ (k : String) (v : JSValue) (fs : List (String × JSValue)) (rest : List Char),
      (memberChars (k, v) ++ membersTailChars fs).length < fuel →
      parseMembers fuel (memberChars (k, v) ++ (membersTailChars fs ++ (rbrace :: rest)))
        = some ((k, v) :: fs, rest)) := by
  induction fuel with
  | zero => refine ⟨?_, ?_, ?_⟩ <;> (intros; omega)
  | succ fuel ih =>
    obtain ⟨ihv, iht, ihm⟩ := ih
    refine ⟨?_, ?_, ?_⟩
    · intro v rest hrest hlen
      cases v with
      | null => rfl
      | bool b => cases b <;> rfl
      | str s =>
        have harg : valChars (.str s) ++ rest
            = '"' :: (escChars s.data ++ ('"' :: rest)) := by
          simp [valChars]
        rw [harg]
        simp only [parseVal]
        simp [skipWs_cons _ (by decide : isWsChar '"' = false), readStr_escChars, stringMk_data]
      | num i =>
        by_cases hi : i < 0
        · have harg : valChars (.num i) ++ rest
              = '-' :: (natChars i.natAbs ++ rest) := by
            simp [valChars, intChars, hi]
          have hback : readNum ('-' :: (natChars i.natAbs ++ rest)) = some (i, rest) := by
            have h2 : intChars i ++ rest = '-' :: (natChars i.natAbs ++ rest) := by
              simp [intChars, hi]
            rw [← h2, readNum_intChars i rest hrest]
          rw [harg]
          simp only [parseVal]
          simp [skipWs_cons _ (by decide : isWsChar '-' = false), hback,
            (by decide : ¬('-' : Char) = lbrace)]
        · obtain ⟨c, t, hct, hc⟩ := natChars_head i.natAbs
          obtain ⟨hmn, hn, ht, hf, hq, hbk, hlb, hbr, hcm, hrb, hcl⟩ := digit_ne hc
          have harg : valChars (.num i) ++ rest = c :: (t ++ rest) := by
            simp [valChars, intChars, hi, hct]
          have hback : readNum (c :: (t ++ rest)) = some (i, rest) := by
            have h2 : intChars i ++ rest = c :: (t ++ rest) := by
              simp [intChars, hi, hct]
            rw [← h2, readNum_intChars i rest hrest]
          rw [harg]
          simp only [parseVal]
          simp [skipWs_cons _ (digit_not_ws hc), hn, ht, hf, hq, hbk, hlb, hback]
      | arr xs =>
        cases xs with
        | nil => rfl
        | cons x xs =>
          have harg : valChars (.arr (x :: xs)) ++ rest
              = '[' :: (valChars x ++ (arrTailChars xs ++ (']' :: rest))) := by
            simp [valChars]
          obtain ⟨c2, t2, hct2, hws2, hbr2⟩ := valChars_head x
          have hx : valChars x ++ (arrTailChars xs ++ (']' :: rest))
              = c2 :: (t2 ++ (arrTailChars xs ++ (']' :: rest))) := by
            rw [hct2, List.cons_append]
          have hlx : (valChars x).length < fuel := by
            simp only [valChars, List.length_cons, List.length_append] at hlen
            omega
          have hlt : (arrTailChars xs).length < fuel := by
            simp only [valChars, List.length_cons, List.length_append] at hlen
            omega
          have hrec := ihv x (arrTailChars xs ++ (']' :: rest)) (numOk_arrTail xs rest) hlx
          have htail := iht xs rest hlt
          rw [harg]
          simp only [parseVal]
          rw [skipWs_cons _ (by decide : isWsChar '[' = false)]
          simp only [hx]
          rw [skipWs_cons _ hws2]
          simp [hbr2, ← hx, hrec, htail]
      | obj fs =>
        cases fs with
        | nil => rfl
        | cons f fs =>
          obtain ⟨k, v⟩ := f
          have harg : valChars (.obj ((k, v) :: fs)) ++ rest
              = lbrace :: (memberChars (k, v) ++ (membersTailChars fs ++ (rbrace :: rest))) := by
            simp [valChars]
          have hm : memberChars (k, v) ++ (membersTailChars fs ++ (rbrace :: rest))
              = '"' :: ((escChars k.data ++ ('"' :: (':' :: valChars v)))
                  ++ (membersTailChars fs ++ (rbrace :: rest))) := by
            simp [memberChars]
          have hlm : (memberChars (k, v) ++ membersTailChars fs).length < fuel := by
            simp only [valChars, List.length_cons, List.length_append] at hlen ⊢
            omega
          have hrec := ihm k v fs rest hlm
          rw [harg]
          simp only [parseVal]
          rw [skipWs_cons _ (by decide : isWsChar lbrace = false)]
          simp only [hm]
          rw [skipWs_cons _ (by decide : isWsChar '"' = false)]
          simp only [← hm]
          simp [hrec, (by decide : ¬lbrace = 'n'), (by decide : ¬lbrace = 't'),
            (by decide : ¬lbrace = 'f'), (by decide : ¬lbrace = '"'),
            (by decide : ¬lbrace = '['), (by decide : ¬('"' : Char) = rbrace)]
    · intro xs rest hlen
      cases xs with
      | nil => rfl
      | cons x xs =>
        have harg : arrTailChars (x :: xs) ++ (']' :: rest)
            = ',' :: (valChars x ++ (arrTailChars xs ++ (']' :: rest))) := by
          simp [arrTailChars]
        have hlx : (valChars x).length < fuel := by
          simp only [arrTailChars, List.length_cons, List.length_append] at hlen
          omega
        have hlt : (arrTailChars xs).length < fuel := by
          simp only [arrTailChars, List.length_cons, List.length_append] at hlen
          omega
        have hrec := ihv x (arrTailChars xs ++ (']' :: rest)) (numOk_arrTail xs rest) hlx
        have htail := iht xs rest hlt
        rw [harg]
        simp only [parseArrTail]
        simp [skipWs_cons _ (by decide : isWsChar ',' = false), hrec, htail]
    · intro k v fs rest hlen
      have harg : memberChars (k, v) ++ (membersTailChars fs ++ (rbrace :: rest))
          = '"' :: (escChars k.data
              ++ ('"' :: (':' :: (valChars v ++ (membersTailChars fs ++ (rbrace :: rest)))))) := by
        simp [memberChars]
      have hlv : (valChars v).length < fuel := by
        simp only [memberChars, List.length_cons, List.length_append] at hlen
        omega
      have hrec := ihv v (membersTailChars fs ++ (rbrace :: rest)) (numOk_membersTail fs rest) hlv
      rw [harg]
      simp only [parseMembers]
      rw [skipWs_cons _ (by decide : isWsChar '"' = false)]
      simp only [readStr_escChars k.data, stringMk_data]
      rw [skipWs_cons _ (by decide : isWsChar ':' = false)]
      cases fs with
      | nil =>
        simp only [membersTailChars, List.nil_append] at hrec ⊢
        simp [hrec, skipWs_cons _ (by decide : isWsChar rbrace = false), (by decide : ¬rbrace = ',')]
      | cons g gs =>
        obtain ⟨k2, v2⟩ := g
        have htl : membersTailChars ((k2, v2) :: gs) ++ (rbrace :: rest)
            = ',' :: (memberChars (k2, v2) ++ (membersTailChars gs ++ (rbrace :: rest))) := by
          simp [membersTailChars]
        have hlg : (memberChars (k2, v2) ++ membersTailChars gs).length < fuel := by
          simp only [memberChars, membersTailChars, List.length_cons,
            List.length_append] at hlen ⊢
          omega
        have hrec2 := ihm k2 v2 gs rest hlg
        rw [htl] at hrec ⊢
        simp [hrec, hrec2, skipWs_cons _ (by decide : isWsChar ',' = false)]

theorem jsonParse_stringify (v : JSValue) : jsonParse (jsonStringify v) = some v := by
  have h := (parse_rt ((valChars v).length + 1)).1 v [] (by trivial) (by omega)
  rw [List.append_nil] at h
  have hdata : (jsonStringify v).data = valChars v := rfl
  rw [jsonParse, hdata, h]
  simp [skipWs]

/-- Property access `value.field` on a parsed JSON value: `some` is a
present own property, `none` is JavaScript `undefined` (absent key or a
non-object receiver).  A duplicate key keeps the last value, the way
`JSON.parse` builds objects. -/
def jsGetField (v : JSValue) (key : String) : Option JSValue :=
  match v with
  | .obj fs => fs.foldl (fun acc p => if p.1 = key then some p.2 else acc) none
  | _ => none

/-- Key insertion for the `this.pins` `Map` at the JSON level; the key is
`memory.id`, which after an unvalidated import can be any value or
`undefined` (`none`). -/
def jsKeyInsert (keys : List (Option JSValue)) (k : Option JSValue) :
    List (Option JSValue) :=
  if k ∈ keys then keys else keys ++ [k]

/-- The white-space characters JavaScript `ToNumber` strips from a string
(the ECMAScript StrWhiteSpaceChar set): tab, line feed, vertical tab, form
feed, carriage return, space, no-break space, Ogham space mark, the
en-quad through hair-space range, line separator, paragraph separator,
narrow no-break space, medium mathematical space, ideographic space, and
the byte-order mark. -/
def isStrWsChar (c : Char) : Bool :=
  c.toNat = 9 || c.toNat = 10 || c.toNat = 11 || c.toNat = 12 ||
  c.toNat = 13 || c.toNat = 32 || c.toNat = 160 || c.toNat = 5760 ||
  (8192 ≤ c.toNat && c.toNat ≤ 8202) || c.toNat = 8232 ||
  c.toNat = 8233 || c.toNat = 8239 || c.toNat = 8287 ||
  c.toNat = 12288 || c.toNat = 65279

/-- Hexadecimal digit, for the `0x…` form of a numeric string. -/
def isHexDigitChar (c : Char) : Bool :=
  isDigitChar c || ('a' ≤ c && c ≤ 'f') || ('A' ≤ c && c ≤ 'F')

/-- Octal digit, for the `0o…` form of a numeric string. -/
def isOctDigitChar (c : Char) : Bool := '0' ≤ c && c ≤ '7'

/-- Binary digit, for the `0b…` form of a numeric string. -/
def isBinDigitChar (c : Char) : Bool := c = '0' || c = '1'

/-- A non-empty run of digits of the given kind. -/
def digits1 (p : Char → Bool) (cs : List Char) : Bool :=
  !cs.isEmpty && cs.all p

/-- The characters after the `e`/`E` of an exponent: an optional sign
followed by at least one decimal digit. -/
def expTailOk : List Char → Bool
  | [] => false
  | c :: rest =>
    if c = '+' || c = '-' then digits1 isDigitChar rest
    else digits1 isDigitChar (c :: rest)

/-- An optional exponent part terminating a decimal numeric string. -/
def expPartOk : List Char → Bool
  | [] => true
  | c :: rest => (c = 'e' || c = 'E') && expTailOk rest

/-- An unsigned ECMAScript StrUnsignedDecimalLiteral: `Infinity`, or a
decimal literal — digits, an optional dot with further digits, and an
optional exponent, with at least one digit on some side of the dot. -/
def unsignedDecOk (cs : List Char) : Bool :=
  decide (cs = "Infinity".data) ||
    (let ds := cs.takeWhile isDigitChar
     match cs.dropWhile isDigitChar with
     | [] => !ds.isEmpty
     | c :: rest2 =>
       if c = '.' then
         (!ds.isEmpty || !(rest2.takeWhile isDigitChar).isEmpty) &&
           expPartOk (rest2.dropWhile isDigitChar)
       else !ds.isEmpty && expPartOk (c :: rest2))

/-- An ECMAScript NonDecimalIntegerLiteral: `0x`, `0o` or `0b` in either
case followed by at least one digit of the matching base; these forms
admit no sign. -/
def nonDecOk : List Char → Bool
  | '0' :: c :: rest =>
    if c = 'x' || c = 'X' then digits1 isHexDigitChar rest
    else if c = 'o' || c = 'O' then digits1 isOctDigitChar rest
    else if c = 'b' || c = 'B' then digits1 isBinDigitChar rest
    else false
  | _ => false

/-- Whether JavaScript `ToNumber` on this character sequence yields a
number rather than `NaN`: surrounding white space is stripped, an empty
remainder is `0`, and otherwise the remainder must be a non-decimal
integer literal or an optionally signed decimal literal / `Infinity`. -/
def strNumOk (cs : List Char) : Bool :=
  let t := (((cs.dropWhile isStrWsChar).reverse).dropWhile isStrWsChar).reverse
  t.isEmpty || nonDecOk t ||
    (match t with
     | [] => true
     | c :: rest =>
       if c = '+' || c = '-' then unsignedDecOk rest else unsignedDecOk t)

mutual
/-- The text an element contributes inside `Array.prototype.join`: `null`
contributes the empty string, booleans and numbers their usual text, a
nested array its own comma-join, and a plain object `[object Object]`. -/
def joinElemChars : JSValue → List Char
  | .null => []
  | .bool true => "true".data
  | .bool false => "false".data
  | .num n => intChars n
  | .str s => s.data
  | .arr xs => arrJoinChars xs
  | .obj _ => "[object Object]".data
/-- `Array.prototype.toString`, i.e. `join` with a comma separator. -/
def arrJoinChars : List JSValue → List Char
  | [] => []
  | [x] => joinElemChars x
  | x :: y :: xs => joinElemChars x ++ (',' :: arrJoinChars (y :: xs))
end

/-- JavaScript's coercing global `isNaN(x)` — the test Leaflet's `LatLng`
constructor applies to each coordinate — for a property read off a parsed
JSON value: `undefined` (absent field, `none` here) and plain objects
coerce to `NaN`; `null`, booleans and numbers never do; a string goes
through `ToNumber`, and an array is first flattened to a string by its
comma-join and that string then goes through `ToNumber`. -/
def jsIsNaN : Option JSValue → Bool
  | none => true
  | some .null => false
  | some (.bool _) => false
  | some (.num _) => false
  | some (.str s) => !strNumOk s.data
  | some (.arr xs) => !strNumOk (arrJoinChars xs)
  | some (.obj _) => true

/-- Whether `L.marker([memory.lat, memory.lng], …).addTo(this.map)`
throws, following Leaflet's `toLatLng` on a two-element array: when
`typeof lat` is `object` — JavaScript `null`, an array, or a plain
object — the array branch is skipped and `toLatLng` returns `null`, and
adding the marker then throws a `TypeError` when the projection
dereferences the null latlng; otherwise (`undefined`, number, string or
boolean `lat`) the `LatLng` constructor throws its `Invalid LatLng
object` error exactly when `isNaN` holds of either coordinate after
coercion. -/
def latLngCrash (lat lng : Option JSValue) : Bool :=
  match lat with
  | some .null => true
  | some (.arr _) => true
  | some (.obj _) => true
  | _ => jsIsNaN lat || jsIsNaN lng

/-- Whether `addPinToMap(memory)` runs to completion on an arbitrary
value from an unvalidated import, with the throw sites in the order the
code reaches them: reading `memory.mood` (line 248) throws a `TypeError`
when the element is `null` itself; building and adding the marker
(line 257) throws when `latLngCrash` holds of the two coordinates; and
`createPopupContent` evaluates `memory.description.substring(0, 100)`
(line 272), which throws unless `description` is a string.  Every one of
these throws happens before `this.pins.set(memory.id, …)` on line 265
runs. -/
def markerBuildOk (m : JSValue) : Bool :=
  !jeq m JSValue.null &&
  !latLngCrash (jsGetField m "lat") (jsGetField m "lng") &&
  (match jsGetField m "description" with
   | some (.str _) => true
   | _ => false)

/-- The parts of the application state that `importMemories` and
`exportMemories` touch, at the JSON level: after an import the collection
holds whatever values the file's array contained, so `memories` is a list
of `JSValue`s here. -/
structure JSState where
  memories : List JSValue
  pins : List (Option JSValue)
  storage : List JSValue
deriving DecidableEq, Repr

/-- One step of `loadMemories()` at the JSON level, i.e. `addPinToMap`
applied to each imported value in turn: when the marker build throws
(see `markerBuildOk` — a `null` element, an invalid latitude/longitude
pair, or a non-string `description`), the iteration dies with the
exception before `this.pins.set(memory.id, …)` runs.  The result flag is
`false` when the iteration died that way (the marker objects built before
the throw leak, but the `pins` cache and the collection keep the values
shown). -/
def jsLoadGo : List JSValue → JSState → JSState × Bool
  | [], st => (st, true)
  | m :: rest, st =>
    if markerBuildOk m then
      jsLoadGo rest { st with pins := jsKeyInsert st.pins (jsGetField m "id") }
    else (st, false)

/-- Translation of `importMemories(file)` applied to the file's text.
`JSON.parse` failures and the explicit `Array.isArray` check both land in
the `catch` with the prior state intact; after the check, the pins are
cleared, the collection replaced and persisted, and only then are the
markers rebuilt — a throw inside that rebuild is caught and reported, but
the replacement has already happened.  The boolean is `true` exactly when
the success toast is reached, `false` when the error toast is shown. -/
def jsImportMemories (text : String) (st : JSState) : JSState × Bool :=
  match jsonParse text with
  | none => (st, false)
  | some (.arr imported) =>
    jsLoadGo imported { st with pins := [], memories := imported, storage := imported }
  | some _ => (st, false)

/-- Translation of `exportMemories()`: the downloaded file contains
`JSON.stringify(this.memories, null, 2)` (the indentation argument only
adds whitespace, which parsing ignores; we serialize compactly). -/
def jsExportMemories (st : JSState) : String :=
  jsonStringify (.arr st.memories)

/-- Predicate written against the SPECIFICATION's wording, for comparison
with what the code does: a "well-formed memory-like record" per the data
model section — integer `id`, non-empty `title` and `description` text,
`date`, `mood` and `createdAt` strings, and a latitude/longitude pair.
The code never evaluates this predicate; the claim about import failure
is judged against it. -/
def specMemoryLike (v : JSValue) : Bool :=
  (match jsGetField v "id" with | some (.num _) => true | _ => false) &&
  (match jsGetField v "title" with | some (.str s) => decide (s ≠ "") | _ => false) &&
  (match jsGetField v "description" with | some (.str s) => decide (s ≠ "") | _ => false) &&
  (match jsGetField v "date" with | some (.str _) => true | _ => false) &&
  (match jsGetField v "mood" with | some (.str _) => true | _ => false) &&
  (match jsGetField v "lat" with | some (.num _) => true | _ => false) &&
  (match jsGetField v "lng" with | some (.num _) => true | _ => false) &&
  (match jsGetField v "createdAt" with | some (.str _) => true | _ => false)

/-!
Helper lemmas about the structured model.
-/

theorem mem_keyInsert {keys : List Int} {i j : Int} :
    j ∈ keyInsert keys i ↔ j ∈ keys ∨ j = i := by
  unfold keyInsert
  by_cases h : i ∈ keys
  · simp only [if_pos h]
    constructor
    · exact fun hj => Or.inl hj
    · rintro (hj | rfl)
      · exact hj
      · exact h
  · simp [if_neg h]

theorem nodup_keyInsert {keys : List Int} (i : Int) (h : keys.Nodup) :
    (keyInsert keys i).Nodup := by
  unfold keyInsert
  by_cases hm : i ∈ keys
  · simpa [if_pos hm]
  · simp [if_neg hm, List.nodup_append, h, hm]

theorem find?_mem_ids {l : List Memory} {i : Int} (h : i ∈ idsOf l) :
    ∃ m, l.find? (fun m => m.id = i) = some m ∧ m.id = i := by
  induction l with
  | nil => simp [idsOf] at h
  | cons a t ih =>
    by_cases ha : a.id = i
    · exact ⟨a, by simp [List.find?_cons, ha], ha⟩
    · have ht : i ∈ idsOf t := by
        simp only [idsOf, List.map_cons, List.mem_cons] at h
        rcases h with h | h
        · exact absurd h.symm ha
        · exact h
      obtain ⟨m, hm, hid⟩ := ih ht
      exact ⟨m, by simp [List.find?_cons, ha, hm], hid⟩

theorem find?_unique {l : List Memory} {i : Int} {m : Memory}
    (hnd : (idsOf l).Nodup) (hm : m ∈ l) (hid : m.id = i) :
    l.find? (fun m => m.id = i) = some m := by
  induction l with
  | nil => simp at hm
  | cons a t ih =>
    have hnd' : a.id ∉ List.map (fun m => m.id) t ∧
        (List.map (fun m => m.id) t).Nodup := by
      have h0 := hnd
      simp only [idsOf, List.map_cons, List.nodup_cons] at h0
      exact h0
    rcases List.mem_cons.mp hm with rfl | hmt
    · simp [List.find?_cons, hid]
    · have hai : ¬ a.id = i := by
        intro hcon
        apply hnd'.1
        rw [hcon, ← hid]
        exact List.mem_map_of_mem (fun m => m.id) hmt
      have hnd2 : (idsOf t).Nodup := hnd'.2
      simp [List.find?_cons, hai, ih hnd2 hmt]

theorem idsOf_set_find? {l : List Memory} {p : Memory → Bool} {orig mem : Memory}
    (hf : l.find? p = some orig) (hid : mem.id = orig.id) :
    idsOf (l.set (l.findIdx p) mem) = idsOf l := by
  induction l with
  | nil => simp [List.find?] at hf
  | cons a t ih =>
    by_cases ha : p a = true
    · simp only [List.find?_cons, ha] at hf
      injection hf with hf
      subst hf
      simp [List.findIdx_cons, ha, idsOf, hid]
    · rw [Bool.not_eq_true] at ha
      simp only [List.find?_cons, ha] at hf
      simp only [List.findIdx_cons, ha, cond_false, idsOf, List.map_cons] at ih ⊢
      rw [List.set_cons_succ]
      simp only [List.map_cons, List.cons.injEq, true_and]
      exact ih hf

theorem eraseIdx_findIdx_split {l : List Memory} {p : Memory → Bool} {orig : Memory}
    (hf : l.find? p = some orig) :
    ∃ l1 l2, l = l1 ++ orig :: l2 ∧ (∀ m ∈ l1, p m = false) ∧
      l.eraseIdx (l.findIdx p) = l1 ++ l2 := by
  induction l with
  | nil => simp [List.find?] at hf
  | cons a t ih =>
    by_cases ha : p a = true
    · simp only [List.find?_cons, ha] at hf
      injection hf with hf
      subst hf
      exact ⟨[], t, rfl, by simp, by simp [List.findIdx_cons, ha]⟩
    · rw [Bool.not_eq_true] at ha
      simp only [List.find?_cons, ha] at hf
      obtain ⟨l1, l2, hsplit, hl1, herase⟩ := ih hf
      refine ⟨a :: l1, l2, by simp [hsplit], ?_, ?_⟩
      · intro m hm
        rcases List.mem_cons.mp hm with rfl | hm2
        · exact ha
        · exact hl1 m hm2
      · simp [List.findIdx_cons, ha, List.eraseIdx_cons_succ, herase]

theorem loadMemoriesGo_spec : ∀ (ms : List Memory) (st : AtlasState),
    loadMemoriesGo ms st =
      { st with pins := (idsOf ms).foldl keyInsert st.pins,
                visible := (idsOf ms).foldl keyInsert st.visible } := by
  intro ms
  induction ms with
  | nil => intro st; simp [loadMemoriesGo, idsOf]
  | cons m t ih =>
    intro st
    rw [loadMemoriesGo, ih]
    simp [addPinToMap, idsOf]

theorem mem_foldl_keyInsert : ∀ (l : List Int) (init : List Int) (j : Int),
    j ∈ l.foldl keyInsert init ↔ j ∈ init ∨ j ∈ l := by
  intro l
  induction l with
  | nil => intro init j; simp
  | cons i t ih =>
    intro init j
    rw [List.foldl_cons, ih]
    rw [mem_keyInsert]
    constructor
    · rintro ((h | rfl) | h)
      · exact Or.inl h
      · exact Or.inr (by simp)
      · exact Or.inr (by simp [h])
    · rintro (h | h)
      · exact Or.inl (Or.inl h)
      · rcases List.mem_cons.mp h with rfl | h2
        · exact Or.inl (Or.inr rfl)
        · exact Or.inr h2

theorem nodup_foldl_keyInsert : ∀ (l : List Int) (init : List Int),
    init.Nodup → (l.foldl keyInsert init).Nodup := by
  intro l
  induction l with
  | nil => intro init h; simpa
  | cons i t ih => intro init h; exact ih _ (nodup_keyInsert i h)

/-!
Claim theorems.
-/

/-- Shared helper: submitting the memory form in editing mode while
`currentMemoryId` matches no record throws before any mutation — the
`TypeError` surfaces at `this.memories.find(...).createdAt` (or already
at `this.currentPin.lat`), so the carried state is the input state. -/
theorem saveMemory_stale_edit_crashes (st : AtlasState) (form : MemoryForm)
    (now : Int) (nowIso : String)
    (hedit : st.editingMemory = true)
    (hstale : ∀ i, st.currentMemoryId = some i → i ∉ idsOf st.memories)
    (ht : jsTrim form.title ≠ "") (hd : form.date ≠ "")
    (hde : jsTrim form.description ≠ "") :
    saveMemory st form now nowIso = SaveResult.crashed st := by
  have hval : ¬ (jsTrim form.title = "" ∨ form.date = "" ∨
      jsTrim form.description = "") := by
    push_neg
    exact ⟨ht, hd, hde⟩
  have hnone : st.memories.find?
      (fun m => st.currentMemoryId = some m.id) = none := by
    rw [List.find?_eq_none]
    intro m hm
    simp only [decide_eq_true_eq]
    intro hcon
    cases hc : st.currentMemoryId with
    | none => rw [hc] at hcon; cases hcon
    | some i =>
      rw [hc] at hcon
      injection hcon with hcon
      exact hstale i hc (hcon ▸ List.mem_map_of_mem (fun m => m.id) hm)
  unfold saveMemory
  rw [if_neg hval]
  cases hpin : st.currentPin with
  | none => rfl
  | some p =>
    obtain ⟨la, ln⟩ := p
    simp only [hedit, if_true, hnone]

/-- Sample quiescent state used by concrete witnesses. -/
def stBase : AtlasState :=
  { memories := [], pins := [], visible := [], storage := [],
    currentMemoryId := none, editingMemory := false, currentPin := none,
    addingMemory := false }

/-- C6: submitting the creation form with a blank required field (title,
date or description, after trimming) makes `saveMemory` show the
validation alert and return before touching anything: the result carries
the input state unchanged, so the collection and the persisted storage
are exactly as before.  (The check runs before the editing/creation
split, so the mode hypothesis is not even needed.) -/
theorem C6_blank_field_rejected (st : AtlasState) (form : MemoryForm)
    (now : Int) (nowIso : String)
    (_hmode : st.editingMemory = false)
    (hblank : jsTrim form.title = "" ∨ form.date = "" ∨
      jsTrim form.description = "") :
    saveMemory st form now nowIso = SaveResult.invalid st := by
  unfold saveMemory
  rw [if_pos hblank]

/-- Witness for C6 at a concrete blank-title input. -/
theorem C6_blank_field_rejected_witness :
    saveMemory stBase
      { title := "  ", date := "2024-05-01", description := "hike",
        selectedMood := none } 5 "2024-05-02T00:00:00.000Z"
      = SaveResult.invalid stBase :=
  C6_blank_field_rejected stBase
    { title := "  ", date := "2024-05-01", description := "hike",
      selectedMood := none } 5 "2024-05-02T00:00:00.000Z" rfl
    (Or.inl (by decide))

/-- C1: the claim says an update whose id is stale is "skipped, no
crash, collection unchanged".  The collection is indeed unchanged (the
throw happens while the replacement object is still being built), but
the operation is not skipped gracefully: `saveMemory` dies with an
uncaught `TypeError` reading `.createdAt` of `undefined`, because the
not-found result of `this.memories.find` is dereferenced unchecked.
This theorem exhibits the crash, supporting the code-bug verdict. -/
theorem C1_stale_update_crashes_not_skipped (st : AtlasState)
    (form : MemoryForm) (now : Int) (nowIso : String)
    (hedit : st.editingMemory = true)
    (hstale : ∀ i, st.currentMemoryId = some i → i ∉ idsOf st.memories)
    (ht : jsTrim form.title ≠ "") (hd : form.date ≠ "")
    (hde : jsTrim form.description ≠ "") :
    saveMemory st form now nowIso = SaveResult.crashed st :=
  saveMemory_stale_edit_crashes st form now nowIso hedit hstale ht hd hde

/-- Editing-mode state with a stale id, for the C1 witness. -/
def stStale : AtlasState :=
  { memories := [], pins := [], visible := [], storage := [],
    currentMemoryId := some 99, editingMemory := true,
    currentPin := some (1, 2), addingMemory := false }

/-- Witness for C1 at a concrete stale-id editing state. -/
theorem C1_stale_update_crashes_not_skipped_witness :
    saveMemory stStale
      { title := "T", date := "2024-01-01", description := "D",
        selectedMood := none } 5 "iso"
      = SaveResult.crashed stStale :=
  C1_stale_update_crashes_not_skipped stStale
    { title := "T", date := "2024-01-01", description := "D",
      selectedMood := none } 5 "iso" rfl
    (fun i hi => by simp [stStale, idsOf]) (by decide) (by decide) (by decide)

/-- C8: the claim says editing preserves `id`/`createdAt` and applies
the new field values.  In the code the edit flow can never get that far:
`editMemory` calls `closeDetailModal`, which resets `currentMemoryId` to
`null` before the form is submitted, so the subsequent `saveMemory` in
editing mode always dereferences `undefined` and throws — for every
record actually in the collection and every valid new input, the
submission crashes and the collection keeps its old field values.  This
theorem exhibits the broken flow, supporting the code-bug verdict. -/
theorem C8_edit_flow_always_crashes (st : AtlasState) (i : Int)
    (form : MemoryForm) (now : Int) (nowIso : String)
    (hmem : i ∈ idsOf st.memories)
    (ht : jsTrim form.title ≠ "") (hd : form.date ≠ "")
    (hde : jsTrim form.description ≠ "") :
    saveMemory (editMemory (showMemoryDetail st i)) form now nowIso
        = SaveResult.crashed (editMemory (showMemoryDetail st i)) ∧
      (editMemory (showMemoryDetail st i)).memories = st.memories := by
  obtain ⟨m, hfind, hid⟩ := find?_mem_ids hmem
  have hshow : showMemoryDetail st i = { st with currentMemoryId := some i } := by
    unfold showMemoryDetail
    rw [hfind]
  have hfind2 : ∃ m2,
      ({ st with currentMemoryId := some i } : AtlasState).memories.find?
        (fun m => ({ st with currentMemoryId := some i } : AtlasState).currentMemoryId
          = some m.id) = some m2 := by
    have hsome : (st.memories.find?
        (fun m2 => (some i : Option Int) = some m2.id)).isSome = true := by
      rw [List.find?_isSome]
      exact ⟨m, List.mem_of_find?_eq_some hfind, by simp [hid]⟩
    obtain ⟨m2, hm2⟩ := Option.isSome_iff_exists.mp hsome
    exact ⟨m2, hm2⟩
  obtain ⟨m2, hfind2⟩ := hfind2
  have hedit : editMemory (showMemoryDetail st i)
      = { st with
          currentMemoryId := none
          currentPin := some (m2.lat, m2.lng)
          editingMemory := true } := by
    rw [hshow]
    unfold editMemory
    rw [hfind2]
    rfl
  rw [hedit]
  refine ⟨?_, rfl⟩
  apply saveMemory_stale_edit_crashes
  · rfl
  · intro j hj
    cases hj
  · exact ht
  · exact hd
  · exact hde

/-- Stored record used by the C8 witness. -/
def memOld : Memory :=
  { id := 7, title := "Old", date := "2024-01-01", description := "old",
    mood := "😊", lat := 3, lng := 4,
    createdAt := "2024-01-01T00:00:00.000Z" }

/-- One-record state for the C8 witness. -/
def stOneRec : AtlasState :=
  { memories := [memOld], pins := [7], visible := [7], storage := [memOld],
    currentMemoryId := none, editingMemory := false, currentPin := none,
    addingMemory := false }

/-- Witness for C8: opening record 7 for editing and submitting valid
new values crashes and leaves the stored record untouched. -/
theorem C8_edit_flow_always_crashes_witness :
    saveMemory (editMemory (showMemoryDetail stOneRec 7))
        { title := "New", date := "2024-02-02", description := "new",
          selectedMood := some "🌙" } 123 "2024-02-02T00:00:00.000Z"
      = SaveResult.crashed (editMemory (showMemoryDetail stOneRec 7)) ∧
      (editMemory (showMemoryDetail stOneRec 7)).memories = stOneRec.memories :=
  C8_edit_flow_always_crashes stOneRec 7
    { title := "New", date := "2024-02-02", description := "new",
      selectedMood := some "🌙" } 123 "2024-02-02T00:00:00.000Z"
    (by simp [stOneRec, memOld, idsOf]) (by decide) (by decide) (by decide)

/-- C7 counterexample: the claim says the new record's fields "match the
input exactly except id/createdAt".  The code stores the trimmed title
and description and substitutes the default pin symbol when no mood is
selected, so for the input title "Trip " (trailing blank, a legal form
value) the stored title "Trip" differs from the input, and the stored
mood "📍" corresponds to no input at all. -/
theorem C7_counterexample :
    (saveMemory
        { stBase with currentPin := some (40, -74) }
        { title := "Trip ", date := "2024-05-01", description := "First hike",
          selectedMood := none } 1000 "2024-05-02T00:00:00.000Z").state.memories.map
        (fun m => (m.title, m.mood))
      = [("Trip", "📍")] ∧
    ("Trip" : String) ≠ "Trip " := by
  constructor
  · decide
  · decide

/-- C7 (amended): creating with all required fields present and a map
position picked appends exactly one record — the prior records are
untouched (the new collection is the old one with the record appended),
the new record carries the generated id (`Date.now()`) and `createdAt`
stamp, its date and location match the input, its title and description
match the input after trimming surrounding whitespace, and its mood is
the selected one or the default "📍" when none is selected; the result is
persisted and a marker for the new id is placed. -/
theorem C7_create_appends_record (st : AtlasState) (form : MemoryForm)
    (now : Int) (nowIso : String) (la ln : Int)
    (hmode : st.editingMemory = false) (hpin : st.currentPin = some (la, ln))
    (ht : jsTrim form.title ≠ "") (hd : form.date ≠ "")
    (hde : jsTrim form.description ≠ "") :
    ∃ stOut, saveMemory st form now nowIso = SaveResult.saved stOut ∧
      stOut.memories = st.memories ++
        [{ id := now, title := jsTrim form.title, date := form.date,
           description := jsTrim form.description,
           mood := form.selectedMood.getD "📍", lat := la, lng := ln,
           createdAt := nowIso }] ∧
      stOut.storage = stOut.memories ∧
      now ∈ stOut.pins := by
  have hval : ¬ (jsTrim form.title = "" ∨ form.date = "" ∨
      jsTrim form.description = "") := by
    push_neg
    exact ⟨ht, hd, hde⟩
  unfold saveMemory
  rw [if_neg hval, hpin]
  simp only [hmode, if_false]
  refine ⟨_, rfl, ?_, ?_, ?_⟩
  · simp [closeModal, addPinToMap, saveToStorage]
  · simp [closeModal, addPinToMap, saveToStorage]
  · simp [closeModal, addPinToMap, saveToStorage, mem_keyInsert]

/-- Witness for C7 (amended) at a concrete creation. -/
theorem C7_create_appends_record_witness :
    ∃ stOut, saveMemory { stBase with currentPin := some (40, -74) }
        { title := "Trip", date := "2024-05-01", description := "First hike",
          selectedMood := some "😊" } 1000 "2024-05-02T00:00:00.000Z"
        = SaveResult.saved stOut ∧
      stOut.memories = stBase.memories ++
        [{ id := 1000, title := jsTrim "Trip", date := "2024-05-01",
           description := jsTrim "First hike", mood := (some "😊").getD "📍",
           lat := 40, lng := -74, createdAt := "2024-05-02T00:00:00.000Z" }] ∧
      stOut.storage = stOut.memories ∧
      (1000 : Int) ∈ stOut.pins :=
  C7_create_appends_record { stBase with currentPin := some (40, -74) }
    { title := "Trip", date := "2024-05-01", description := "First hike",
      selectedMood := some "😊" } 1000 "2024-05-02T00:00:00.000Z" 40 (-74)
    rfl rfl (by decide) (by decide) (by decide)

/-- Rebuilding the markers never touches the collection or the persisted
snapshot, whether or not it crashes partway. -/
theorem jsLoadGo_frame : ∀ (ms : List JSValue) (st : JSState),
    (jsLoadGo ms st).1.memories = st.memories ∧
      (jsLoadGo ms st).1.storage = st.storage := by
  intro ms
  induction ms with
  | nil => intro st; exact ⟨rfl, rfl⟩
  | cons m t ih =>
    intro st
    rw [jsLoadGo]
    by_cases hok : markerBuildOk m = true
    · rw [if_pos hok]; exact ih _
    · rw [if_neg hok]; exact ⟨rfl, rfl⟩

/-- Rebuilding the markers succeeds exactly when `addPinToMap` completes
on every imported value — no `null` element, coercible coordinates, and
a string `description`. -/
theorem jsLoadGo_ok_iff : ∀ (ms : List JSValue) (st : JSState),
    (jsLoadGo ms st).2 = true ↔ ∀ x ∈ ms, markerBuildOk x = true := by
  intro ms
  induction ms with
  | nil => intro st; simp [jsLoadGo]
  | cons m t ih =>
    intro st
    rw [jsLoadGo]
    by_cases hok : markerBuildOk m = true
    · rw [if_pos hok, ih]
      simp only [List.mem_cons]
      constructor
      · rintro h x (rfl | hx)
        · exact hok
        · exact h x hx
      · intro h x hx
        exact h x (Or.inr hx)
    · rw [if_neg hok]
      constructor
      · intro h
        exact absurd h (fun hh => Bool.noConfusion hh)
      · intro h
        exact absurd (h m (List.mem_cons_self m t)) hok

/-- C9: exporting the collection and immediately importing the produced
text yields a collection (and persisted snapshot) identical to the
original, for every collection whatsoever: the serialized form parses
back to the same array (codec round-trip), `Array.isArray` accepts it,
and the collection is replaced by that very array — even if rebuilding a
marker crashes afterwards, the already-performed replacement equals the
original collection. -/
theorem C9_export_import_roundtrip (st : JSState) :
    (jsImportMemories (jsExportMemories st) st).1.memories = st.memories ∧
      (jsImportMemories (jsExportMemories st) st).1.storage = st.memories := by
  have hparse : jsonParse (jsExportMemories st) = some (.arr st.memories) :=
    jsonParse_stringify (.arr st.memories)
  unfold jsImportMemories
  rw [hparse]
  have hframe := jsLoadGo_frame st.memories
    { st with pins := [], memories := st.memories, storage := st.memories }
  exact ⟨hframe.1, hframe.2⟩

/-- A well-formed record at the JSON level, for the import examples. -/
def goodRec : JSValue :=
  .obj [("id", .num 1), ("title", .str "t"), ("date", .str "2024-01-01"),
    ("description", .str "d"), ("mood", .str "😊"), ("lat", .num 40),
    ("lng", .num (-74)), ("createdAt", .str "2024-01-01T00:00:00.000Z")]

/-- Prior application state holding one well-formed record, used by
the import counterexample and witnesses. -/
def stGood : JSState :=
  { memories := [goodRec], pins := [some (.num 1)], storage := [goodRec] }

/-- C2 counterexample.  First half: importing the text `[{}]` — an array,
so it passes the only validation the code has — crashes while rebuilding
the marker (`L.marker([undefined, undefined])` throws on the missing
coordinates), reports failure, yet the prior collection is NOT retained:
it has already been replaced by `[{}]`.  Second half: importing
`[{"description":"x","lat":1,"lng":2}]` succeeds even though the record
is not a well-formed memory-like record in the specification's sense (no
id, title, date, mood or creation stamp).  Together these refute both
directions of the claim: failure is not equivalent to "not a well-formed
list of memory-like records", and failure does not imply the prior state
was retained. -/
theorem C2_counterexample :
    ((jsImportMemories "[\x7b\x7d]" stGood).2 = false ∧
      (jsImportMemories "[\x7b\x7d]" stGood).1.memories ≠ stGood.memories) ∧
    ((jsImportMemories "[\x7b\"description\":\"x\",\"lat\":1,\"lng\":2\x7d]"
        stGood).2 = true ∧
      specMemoryLike (.obj [("description", .str "x"), ("lat", .num 1),
        ("lng", .num 2)]) = false) := by
  refine ⟨⟨?_, ?_⟩, ?_, ?_⟩ <;> decide

/-- C2 (amended): `importMemories` fails exactly when the text is not a
parseable JSON array, or when rebuilding some element's marker throws —
the element is `null`, its latitude/longitude pair is invalid (`lat` of
object type, or either coordinate `NaN` after JavaScript number
coercion: absent fields fail while booleans and numeric strings pass),
or its `description` is not a string.  When the text is not a parseable
array, the prior collection
and markers are fully retained; but whenever the text IS a parseable
array the collection and the persisted snapshot are replaced by its
elements unconditionally — also when a crash later makes the operation
report failure.  Success is reported exactly when `addPinToMap`
completes on every element. -/
theorem C2_import_validation_and_retention (text : String) (st : JSState) :
    ((∀ xs, jsonParse text ≠ some (.arr xs)) →
      jsImportMemories text st = (st, false)) ∧
    (∀ xs, jsonParse text = some (.arr xs) →
      (jsImportMemories text st).1.memories = xs ∧
      (jsImportMemories text st).1.storage = xs ∧
      ((jsImportMemories text st).2 = true ↔
        ∀ x ∈ xs, markerBuildOk x = true)) := by
  constructor
  · intro hno
    unfold jsImportMemories
    cases hp : jsonParse text with
    | none => rfl
    | some v =>
      cases v with
      | arr xs => exact absurd hp (hno xs)
      | null => rfl
      | bool b => rfl
      | num n => rfl
      | str s => rfl
      | obj fs => rfl
  · intro xs hp
    unfold jsImportMemories
    rw [hp]
    have hframe := jsLoadGo_frame xs
      { st with pins := [], memories := xs, storage := xs }
    have hok := jsLoadGo_ok_iff xs
      { st with pins := [], memories := xs, storage := xs }
    exact ⟨hframe.1, hframe.2, hok⟩

/-- Witness for C2 (amended): a parseable array of one number replaces
the collection (and is reported as a failure — a number has no `lat`
property, so the marker build throws on the coordinates); unparseable
text is rejected with the state retained. -/
theorem C2_import_validation_and_retention_witness :
    (jsImportMemories "[4]" stGood).1.memories = [JSValue.num 4] ∧
      jsImportMemories "nonsense" stGood = (stGood, false) := by
  have hnone : jsonParse "nonsense" = none := by rfl
  constructor
  · exact ((C2_import_validation_and_retention "[4]" stGood).2
      [JSValue.num 4] (by rfl)).1
  · exact (C2_import_validation_and_retention "nonsense" stGood).1
      (fun xs h => by rw [hnone] at h; exact Option.noConfusion h)

/-- Erasing the unique record with a given id keeps exactly the records
with other ids, in order. -/
theorem erase_unique_eq_filter {l l1 l2 : List Memory} {i : Int} {orig : Memory}
    (hnd : (idsOf l).Nodup) (hsplit : l = l1 ++ orig :: l2) (hid : orig.id = i)
    (hl1 : ∀ m ∈ l1, ¬ m.id = i) :
    l1 ++ l2 = l.filter (fun m => ¬ m.id = i) := by
  subst hsplit
  have hnd2 : i ∉ idsOf l2 := by
    have h0 := hnd
    rw [idsOf, List.map_append, List.map_cons] at h0
    have h1 := (List.nodup_append.mp h0).2.1
    have h2 := (List.nodup_cons.mp h1).1
    rwa [hid] at h2
  have hi2 : ∀ m ∈ l2, ¬ m.id = i := by
    intro m hm hcon
    exact hnd2 (hcon ▸ List.mem_map_of_mem (fun m => m.id) hm)
  rw [List.filter_append, List.filter_cons]
  have hor : ¬ (decide (¬ orig.id = i) = true) := by simp [hid]
  rw [if_neg hor]
  rw [List.filter_eq_self.mpr (fun m hm => by simpa using hl1 m hm),
    List.filter_eq_self.mpr (fun m hm => by simpa using hi2 m hm)]

/-- Detail-modal state with a stale current id, for the C4
counterexample: the collection holds only record 7. -/
def stStaleDetail : AtlasState :=
  { memories := [memOld], pins := [7], visible := [7], storage := [memOld],
    currentMemoryId := some 99, editingMemory := false, currentPin := none,
    addingMemory := false }

/-- C4 counterexample: confirming deletion while the current id matches
no record is a no-op on the collection — but contrary to the claim it is
NOT reported to the user: the `findIndex === -1` case falls through the
`if` with no toast, so the outcome is the `silent` constructor, not a
reported failure. -/
theorem C4_counterexample :
    deleteMemory stStaleDetail true = DeleteResult.silent stStaleDetail := by
  decide

/-- C4 (amended): with confirmation given and the current id present
(uniquely) in the collection and in the marker cache, delete removes
exactly that record — the result is the collection filtered of that id,
with every other record unchanged and in order — removes its marker, and
persists; without confirmation nothing happens; and when the id matches
no record the collection is untouched and nothing is reported (a silent
no-op, not the reported failure the original claim states). -/
theorem C4_delete_found_and_not_found (st : AtlasState) (i : Int)
    (hcur : st.currentMemoryId = some i) :
    (i ∉ idsOf st.memories → deleteMemory st true = DeleteResult.silent st) ∧
    (deleteMemory st false = DeleteResult.cancelled st) ∧
    ((idsOf st.memories).Nodup → i ∈ idsOf st.memories → i ∈ st.pins →
      ∃ stOut, deleteMemory st true = DeleteResult.deleted stOut ∧
        stOut.memories = st.memories.filter (fun m => ¬ m.id = i) ∧
        stOut.pins = st.pins.erase i ∧
        stOut.visible = st.visible.erase i ∧
        stOut.storage = stOut.memories ∧
        stOut.currentMemoryId = none) := by
  refine ⟨?_, by unfold deleteMemory; simp, ?_⟩
  · intro habs
    have hnone : st.memories.find?
        (fun m => st.currentMemoryId = some m.id) = none := by
      rw [List.find?_eq_none]
      intro m hm
      simp only [decide_eq_true_eq, hcur]
      intro hcon
      injection hcon with hcon
      exact habs (hcon ▸ List.mem_map_of_mem (fun m => m.id) hm)
    unfold deleteMemory
    simp only [Bool.not_true, if_true, hnone]
  · intro hnd hmem hpin
    obtain ⟨orig, hfind0, horigid⟩ := find?_mem_ids hmem
    have hfind : st.memories.find?
        (fun m => st.currentMemoryId = some m.id) = some orig := by
      have : (fun m : Memory => decide (st.currentMemoryId = some m.id))
          = (fun m : Memory => decide (m.id = i)) := by
        funext m
        rw [hcur]
        simp [eq_comm]
      rw [this]
      exact hfind0
    obtain ⟨l1, l2, hsplit, hl1, herase⟩ := eraseIdx_findIdx_split hfind
    have hl1' : ∀ m ∈ l1, ¬ m.id = i := by
      intro m hm
      have := hl1 m hm
      simp only [hcur, decide_eq_false_iff_not] at this
      intro hcon
      exact this (by rw [hcon])
    have hfilter := erase_unique_eq_filter hnd hsplit horigid hl1'
    have hopin : orig.id ∈ st.pins := horigid ▸ hpin
    unfold deleteMemory
    rw [if_pos rfl, hfind]
    simp only [hopin, if_true]
    rw [horigid]
    refine ⟨_, rfl, ?_, rfl, rfl, rfl, rfl⟩
    simp only [closeDetailModal, saveToStorage]
    rw [herase, hfilter]

/-- Witness for C4 (amended): deleting record 7 from the one-record
state with the detail modal on id 7. -/
theorem C4_delete_found_and_not_found_witness :
    ∃ stOut, deleteMemory { stOneRec with currentMemoryId := some 7 } true
        = DeleteResult.deleted stOut ∧
      stOut.memories = ({ stOneRec with currentMemoryId := some 7 }
        : AtlasState).memories.filter (fun m => ¬ m.id = 7) ∧
      stOut.pins = ({ stOneRec with currentMemoryId := some 7 }
        : AtlasState).pins.erase 7 ∧
      stOut.visible = ({ stOneRec with currentMemoryId := some 7 }
        : AtlasState).visible.erase 7 ∧
      stOut.storage = stOut.memories ∧
      stOut.currentMemoryId = none :=
  (C4_delete_found_and_not_found
      { stOneRec with currentMemoryId := some 7 } 7 rfl).2.2
    (by simp [stOneRec, memOld, idsOf])
    (by simp [stOneRec, memOld, idsOf])
    (by simp [stOneRec])

/-- Characterization of the marker-toggling loop of `applyFilters`: when
every pending pin id resolves to a record, the loop completes, leaves
everything but the set of on-map markers alone, and afterwards a marker
is on the map iff its pin was just toggled on (its record passes the
filter) or it was not touched and was already on the map. -/
theorem applyFiltersGo_spec (moodF dateFrom dateTo : String) :
    ∀ (rest : List Int) (st : AtlasState),
      rest.Nodup →
      (∀ j ∈ rest, j ∈ idsOf st.memories) →
      st.visible.Nodup →
      ∃ vis, applyFiltersGo moodF dateFrom dateTo rest st
          = FilterResult.done { st with visible := vis } ∧
        vis.Nodup ∧
        ∀ j, j ∈ vis ↔
          ((j ∈ rest ∧ ∃ m, st.memories.find? (fun m => m.id = j) = some m ∧
              memoryShown moodF dateFrom dateTo m = true) ∨
            (j ∉ rest ∧ j ∈ st.visible)) := by
  intro rest
  induction rest with
  | nil =>
    intro st _ _ hvnd
    exact ⟨st.visible, rfl, hvnd, by simp⟩
  | cons i rest ih =>
    intro st hnd hres hvnd
    have hinr : i ∉ rest := (List.nodup_cons.mp hnd).1
    have hndr : rest.Nodup := (List.nodup_cons.mp hnd).2
    obtain ⟨m, hfind, hmid⟩ := find?_mem_ids (hres i (by simp))
    rw [applyFiltersGo, hfind]
    by_cases hshown : memoryShown moodF dateFrom dateTo m = true
    · simp only [hshown, if_true]
      obtain ⟨vis, hgo, hvnd2, hiff⟩ :=
        ih { st with visible := keyInsert st.visible i } hndr
          (fun j hj => hres j (by simp [hj]))
          (nodup_keyInsert i hvnd)
      refine ⟨vis, hgo, hvnd2, ?_⟩
      intro j
      rw [hiff j]
      by_cases hji : j = i
      · subst hji
        have hmem : j ∈ keyInsert st.visible j := by
          rw [mem_keyInsert]
          simp
        have hp : ∃ m2, st.memories.find? (fun m => m.id = j) = some m2 ∧
            memoryShown moodF dateFrom dateTo m2 = true := ⟨m, hfind, hshown⟩
        simp [hinr, hmem, hp]
      · have hmk : j ∈ keyInsert st.visible i ↔ j ∈ st.visible := by
          rw [mem_keyInsert]
          simp [hji]
        simp only [hmk, List.mem_cons, hji, false_or]
    · have hsf : memoryShown moodF dateFrom dateTo m = false := by
        rwa [Bool.not_eq_true] at hshown
      simp only [hsf, Bool.false_eq_true, if_false]
      obtain ⟨vis, hgo, hvnd2, hiff⟩ :=
        ih { st with visible := st.visible.erase i } hndr
          (fun j hj => hres j (by simp [hj]))
          (hvnd.erase i)
      refine ⟨vis, hgo, hvnd2, ?_⟩
      intro j
      rw [hiff j]
      by_cases hji : j = i
      · subst hji
        have hne : j ∉ st.visible.erase j := by
          rw [hvnd.mem_erase_iff]
          simp
        have hnp : ¬ ∃ m2, st.memories.find? (fun m => m.id = j) = some m2 ∧
            memoryShown moodF dateFrom dateTo m2 = true := by
          rintro ⟨m2, hm2, hs2⟩
          rw [hfind] at hm2
          injection hm2 with h
          subst h
          exact hshown hs2
        simp [hinr, hne, hnp]
      · have hme : j ∈ st.visible.erase i ↔ j ∈ st.visible := by
          rw [hvnd.mem_erase_iff]
          simp [hji]
        simp only [hme, List.mem_cons, hji, false_or]

/-- C5: on a synchronized state (markers and records in bijection, no
duplicate ids, the on-map markers among the cached ones), applying the
filter never touches the collection — only marker visibility — and makes
visible exactly the records satisfying the conjunction of "mood equals",
"date ≥ from" and "date ≤ to", where an empty filter control is
always-true.  (The code hides a marker when `memory.date < dateFrom`
lexicographically on the `YYYY-MM-DD` strings, which is the same as
keeping it iff `dateFrom ≤ memory.date`.) -/
theorem C5_filter_visibility (st : AtlasState) (moodF dateFrom dateTo : String)
    (hnd : (idsOf st.memories).Nodup)
    (hpins : ∀ j ∈ st.pins, j ∈ idsOf st.memories)
    (hids : ∀ m ∈ st.memories, m.id ∈ st.pins)
    (hpnd : st.pins.Nodup)
    (hvsub : ∀ j ∈ st.visible, j ∈ st.pins)
    (hvnd : st.visible.Nodup) :
    ∃ stOut, applyFilters st moodF dateFrom dateTo = FilterResult.done stOut ∧
      stOut.memories = st.memories ∧ stOut.pins = st.pins ∧
      stOut.storage = st.storage ∧
      ∀ j, j ∈ stOut.visible ↔ ∃ m ∈ st.memories, m.id = j ∧
        ((moodF = "" ∨ m.mood = moodF) ∧ (dateFrom = "" ∨ dateFrom ≤ m.date) ∧
          (dateTo = "" ∨ m.date ≤ dateTo)) := by
  obtain ⟨vis, hgo, hvnd2, hiff⟩ :=
    applyFiltersGo_spec moodF dateFrom dateTo st.pins st hpnd hpins hvnd
  refine ⟨{ st with visible := vis }, hgo, rfl, rfl, rfl, ?_⟩
  intro j
  rw [show ({ st with visible := vis } : AtlasState).visible = vis from rfl,
    hiff j]
  constructor
  · rintro (⟨hjp, m, hfind, hs⟩ | ⟨_, hjv⟩)
    · refine ⟨m, List.mem_of_find?_eq_some hfind, by
        simpa using List.find?_some hfind, ?_⟩
      simpa [memoryShown, not_lt] using hs
    · exact absurd (hvsub j hjv) (by assumption)
  · rintro ⟨m, hm, hid, hprops⟩
    left
    refine ⟨hid ▸ hids m hm, m, find?_unique hnd hm hid, ?_⟩
    simpa [memoryShown, not_lt] using hprops

/-- Synchronized two-record state, for the C5 witness. -/
def memSecond : Memory :=
  { id := 8, title := "Second", date := "2024-03-05", description := "two",
    mood := "🌙", lat := 1, lng := 1,
    createdAt := "2024-03-05T00:00:00.000Z" }

/-- Two-record synchronized state used by the C5 and C3/C10 witnesses. -/
def stTwoRec : AtlasState :=
  { memories := [memOld, memSecond], pins := [7, 8], visible := [7, 8],
    storage := [memOld, memSecond], currentMemoryId := none,
    editingMemory := false, currentPin := none, addingMemory := false }

/-- Witness for C5: filtering the two-record state by mood "😊". -/
theorem C5_filter_visibility_witness :
    ∃ stOut, applyFilters stTwoRec "😊" "" "" = FilterResult.done stOut ∧
      stOut.memories = stTwoRec.memories ∧ stOut.pins = stTwoRec.pins ∧
      stOut.storage = stTwoRec.storage ∧
      ∀ j, j ∈ stOut.visible ↔ ∃ m ∈ stTwoRec.memories, m.id = j ∧
        (("😊" : String) = "" ∨ m.mood = "😊") ∧
          (("" : String) = "" ∨ ("" : String) ≤ m.date) ∧
          (("" : String) = "" ∨ m.date ≤ "") :=
  C5_filter_visibility stTwoRec "😊" "" ""
    (by simp [stTwoRec, memOld, memSecond, idsOf])
    (by intro j hj
        simp only [stTwoRec, List.mem_cons, List.not_mem_nil, or_false] at hj
        rcases hj with rfl | rfl <;> simp [stTwoRec, memOld, memSecond, idsOf])
    (by intro m hm
        simp only [stTwoRec, List.mem_cons, List.not_mem_nil, or_false] at hm
        rcases hm with rfl | rfl <;> simp [stTwoRec, memOld, memSecond])
    (by simp [stTwoRec])
    (by intro j hj
        simpa [stTwoRec] using hj)
    (by simp [stTwoRec])

/-- Inserting an already-present key leaves the key list unchanged. -/
theorem keyInsert_of_mem {keys : List Int} {i : Int} (h : i ∈ keys) :
    keyInsert keys i = keys := by
  unfold keyInsert
  rw [if_pos h]

/-- Effect of one form submission on the id list and the marker-cache
keys: either both are unchanged (validation failure, any crash, or an
in-place edit), or — only out of editing mode — the id list gains the
fresh timestamp and the key list gains the same key. -/
theorem saveMemory_ids_pins (st : AtlasState) (form : MemoryForm)
    (now : Int) (nowIso : String) :
    (idsOf (saveMemory st form now nowIso).state.memories = idsOf st.memories ∧
      (saveMemory st form now nowIso).state.pins = st.pins) ∨
    (st.editingMemory = false ∧
      idsOf (saveMemory st form now nowIso).state.memories
        = idsOf st.memories ++ [now] ∧
      (saveMemory st form now nowIso).state.pins = keyInsert st.pins now) := by
  unfold saveMemory
  by_cases hval : (jsTrim form.title = "" ∨ form.date = "" ∨
      jsTrim form.description = "")
  · rw [if_pos hval]
    exact Or.inl ⟨rfl, rfl⟩
  · rw [if_neg hval]
    cases hpin : st.currentPin with
    | none => exact Or.inl ⟨rfl, rfl⟩
    | some p =>
      obtain ⟨la, ln⟩ := p
      cases hedit : st.editingMemory with
      | true =>
        simp only [if_true]
        cases hfind : st.memories.find?
            (fun m => st.currentMemoryId = some m.id) with
        | none => exact Or.inl ⟨rfl, rfl⟩
        | some orig =>
          by_cases hp2 : orig.id ∈ st.pins
          · simp only [hp2, if_true]
            left
            constructor
            · simp only [SaveResult.state, closeModal, addPinToMap, saveToStorage]
              exact idsOf_set_find? hfind rfl
            · simp only [SaveResult.state, closeModal, addPinToMap, saveToStorage]
              exact keyInsert_of_mem hp2
          · simp only [hp2, if_false]
            left
            exact ⟨idsOf_set_find? hfind rfl, rfl⟩
      | false =>
        simp only [Bool.false_eq_true, if_false]
        right
        refine ⟨by trivial, ?_, rfl⟩
        simp [SaveResult.state, closeModal, addPinToMap, saveToStorage, idsOf]

/-- Effect of `deleteMemory` on the collection and the key list: either
both unchanged, or the first record matching the current id is spliced
out and its key removed. -/
theorem deleteMemory_chars (st : AtlasState) (confirmed : Bool) :
    ((deleteMemory st confirmed).state.memories = st.memories ∧
      (deleteMemory st confirmed).state.pins = st.pins) ∨
    (∃ orig l1 l2, st.memories = l1 ++ orig :: l2 ∧
      (deleteMemory st confirmed).state.memories = l1 ++ l2 ∧
      (deleteMemory st confirmed).state.pins = st.pins.erase orig.id) := by
  unfold deleteMemory
  cases confirmed with
  | false => exact Or.inl ⟨rfl, rfl⟩
  | true =>
    simp only [Bool.not_true, if_true]
    cases hfind : st.memories.find?
        (fun m => st.currentMemoryId = some m.id) with
    | none => exact Or.inl ⟨rfl, rfl⟩
    | some orig =>
      by_cases hp2 : orig.id ∈ st.pins
      · simp only [hp2, if_true]
        obtain ⟨l1, l2, hsplit, _, herase⟩ := eraseIdx_findIdx_split hfind
        right
        exact ⟨orig, l1, l2, hsplit, herase, rfl⟩
      · simp only [hp2, if_false]
        exact Or.inl ⟨rfl, rfl⟩

/-- Replacing the collection through an import rebuilds the key list as
the de-duplicated id list of the imported records. -/
theorem importMemories_chars (st : AtlasState) (l : List Memory) :
    (importMemories st l).memories = l ∧
      (importMemories st l).pins = (idsOf l).foldl keyInsert [] := by
  unfold importMemories loadMemories
  rw [loadMemoriesGo_spec]
  exact ⟨rfl, rfl⟩

/-- The marker-toggling loop never touches the collection, keys or
snapshot, also when it crashes partway. -/
theorem applyFiltersGo_frame (moodF dateFrom dateTo : String) :
    ∀ (rest : List Int) (st : AtlasState),
      (applyFiltersGo moodF dateFrom dateTo rest st).state.memories
          = st.memories ∧
        (applyFiltersGo moodF dateFrom dateTo rest st).state.pins = st.pins := by
  intro rest
  induction rest with
  | nil => intro st; exact ⟨rfl, rfl⟩
  | cons i rest ih =>
    intro st
    rw [applyFiltersGo]
    cases hfind : st.memories.find? (fun m => m.id = i) with
    | none => exact ⟨rfl, rfl⟩
    | some m =>
      by_cases hshown : memoryShown moodF dateFrom dateTo m = true
      · simp only [hshown, if_true]
        exact ih _
      · have hsf : memoryShown moodF dateFrom dateTo m = false := by
          rwa [Bool.not_eq_true] at hshown
        simp only [hsf, Bool.false_eq_true, if_false]
        exact ih _

/-- The marker-toggling loop completes whenever every pending key has a
record (the lookup `this.memories.find(m => m.id === id)` succeeds). -/
theorem applyFiltersGo_done (moodF dateFrom dateTo : String) :
    ∀ (rest : List Int) (st : AtlasState),
      (∀ j ∈ rest, j ∈ idsOf st.memories) →
      ∃ stOut, applyFiltersGo moodF dateFrom dateTo rest st
        = FilterResult.done stOut := by
  intro rest
  induction rest with
  | nil => intro st _; exact ⟨st, rfl⟩
  | cons i rest ih =>
    intro st hres
    obtain ⟨m, hfind, _⟩ := find?_mem_ids (hres i (by simp))
    rw [applyFiltersGo, hfind]
    by_cases hshown : memoryShown moodF dateFrom dateTo m = true
    · simp only [hshown, if_true]
      exact ih _ (fun j hj => hres j (by simp [hj]))
    · have hsf : memoryShown moodF dateFrom dateTo m = false := by
        rwa [Bool.not_eq_true] at hshown
      simp only [hsf, Bool.false_eq_true, if_false]
      exact ih _ (fun j hj => hres j (by simp [hj]))

/-- `showMemoryDetail` and `editMemory` only move modal state: the
collection and the key list are untouched. -/
theorem showMemoryDetail_frame (st : AtlasState) (i : Int) :
    (showMemoryDetail st i).memories = st.memories ∧
      (showMemoryDetail st i).pins = st.pins ∧
      (showMemoryDetail st i).visible = st.visible := by
  unfold showMemoryDetail
  cases st.memories.find? (fun m => m.id = i) with
  | none => exact ⟨rfl, rfl, rfl⟩
  | some m => exact ⟨rfl, rfl, rfl⟩

/-- Frame lemma for `editMemory`. -/
theorem editMemory_frame (st : AtlasState) :
    (editMemory st).memories = st.memories ∧
      (editMemory st).pins = st.pins ∧ (editMemory st).visible = st.visible := by
  unfold editMemory
  cases st.memories.find? (fun m => st.currentMemoryId = some m.id) with
  | none => exact ⟨rfl, rfl, rfl⟩
  | some m => exact ⟨rfl, rfl, rfl⟩

/-- The user-level operations of the application, each modelled as the
complete event-handler flow it triggers in `app.js` (ending with the
modal being closed, which only resets modal bookkeeping). -/
inductive AtlasOp where
  /-- Map click in adding mode (`createMemoryAt`) followed by submitting
  the creation form (`saveMemory`). -/
  | createOp (lat lng : Int) (form : MemoryForm) (now : Int) (nowIso : String)
  /-- Opening a record's detail view (`showMemoryDetail`), clicking Edit
  (`editMemory`) and submitting the form (`saveMemory`). -/
  | editOp (i : Int) (form : MemoryForm) (now : Int) (nowIso : String)
  /-- Opening a record's detail view and clicking Delete
  (`deleteMemory`), with the confirmation dialog's answer. -/
  | deleteOp (i : Int) (confirmed : Bool)
  /-- A successful `importMemories` whose parsed array contained the
  given records. -/
  | importOp (imported : List Memory)
  /-- `applyFilters` with the three control values. -/
  | filterOp (moodF dateFrom dateTo : String)
  /-- `clearFilters`. -/
  | clearOp

/-- Applying one user-level operation to the state. -/
def applyOp (st : AtlasState) : AtlasOp → AtlasState
  | .createOp la ln form now nowIso =>
    closeModal (saveMemory (createMemoryAt st la ln) form now nowIso).state
  | .editOp i form now nowIso =>
    closeModal (saveMemory (editMemory (showMemoryDetail st i)) form now nowIso).state
  | .deleteOp i confirmed =>
    closeDetailModal (deleteMemory (showMemoryDetail st i) confirmed).state
  | .importOp imported => importMemories st imported
  | .filterOp moodF dateFrom dateTo =>
    (applyFilters st moodF dateFrom dateTo).state
  | .clearOp => clearFilters st

/-- The constructor flow of the `LifeAtlas` class: the collection is
read from local storage and `loadMemories` pins every stored record. -/
def initState (stored : List Memory) : AtlasState :=
  loadMemories
    { memories := stored, pins := [], visible := [], storage := stored,
      currentMemoryId := none, editingMemory := false, currentPin := none,
      addingMemory := false }

/-- Conditions under which an operation cannot manufacture a duplicate
id: a form submission's `Date.now()` value is not already an id in the
collection, and an imported file carries pairwise-distinct ids. -/
def opSafe (st : AtlasState) : AtlasOp → Prop
  | .createOp _ _ _ now _ => now ∉ idsOf st.memories
  | .editOp _ _ now _ => now ∉ idsOf st.memories
  | .importOp imported => (idsOf imported).Nodup
  | _ => True

/-- The marker cache is well-formed: its keys are pairwise distinct and
every key is the id of some record. -/
def pinsWellFormed (st : AtlasState) : Prop :=
  st.pins.Nodup ∧ ∀ j ∈ st.pins, j ∈ idsOf st.memories

/-- Second record sharing id 1, for the duplicate-import examples. -/
def memDupA : Memory :=
  { id := 1, title := "A", date := "2024-01-01", description := "a",
    mood := "📍", lat := 0, lng := 0, createdAt := "c1" }

/-- Record with the same id as `memDupA` but different contents. -/
def memDupB : Memory :=
  { id := 1, title := "B", date := "2024-01-02", description := "b",
    mood := "😊", lat := 5, lng := 5, createdAt := "c2" }

/-- C3 counterexample: one reachable step — importing a file whose two
records share id 1 into the freshly loaded empty application — yields a
collection in which `id` is NOT unique: `importMemories` performs no
id validation whatsoever. -/
theorem C3_counterexample :
    ¬ (idsOf (applyOp (initState []) (AtlasOp.importOp [memDupA, memDupB])).memories).Nodup := by
  decide

/-- C3 (amended): id uniqueness holds in every reachable state provided
every import supplies pairwise-distinct ids and every form submission's
generated timestamp is not already present as an id: the freshly loaded
state inherits uniqueness from storage, and every user-level operation
preserves it under those conditions. -/
theorem C3_unique_ids_preserved :
    (∀ stored : List Memory, (idsOf stored).Nodup →
      (idsOf (initState stored).memories).Nodup) ∧
    (∀ (st : AtlasState) (op : AtlasOp), (idsOf st.memories).Nodup →
      opSafe st op → (idsOf (applyOp st op).memories).Nodup) := by
  constructor
  · intro stored h
    unfold initState loadMemories
    rw [loadMemoriesGo_spec]
    exact h
  · intro st op hnd hsafe
    cases op with
    | createOp la ln form now nowIso =>
      have hframe : (createMemoryAt st la ln).memories = st.memories := rfl
      rcases saveMemory_ids_pins (createMemoryAt st la ln) form now nowIso with
        ⟨hids, _⟩ | ⟨_, hids, _⟩
      · simpa [applyOp, closeModal, hids, hframe] using hnd
      · have : idsOf (applyOp st (AtlasOp.createOp la ln form now nowIso)).memories
            = idsOf st.memories ++ [now] := by
          simpa [applyOp, closeModal, hframe] using hids
        rw [this]
        exact hnd.append (List.nodup_singleton now)
          (fun a ha hb => hsafe ((List.mem_singleton.mp hb) ▸ ha))
    | editOp i form now nowIso =>
      have hframe : (editMemory (showMemoryDetail st i)).memories = st.memories := by
        rw [(editMemory_frame (showMemoryDetail st i)).1,
          (showMemoryDetail_frame st i).1]
      rcases saveMemory_ids_pins (editMemory (showMemoryDetail st i)) form now nowIso with
        ⟨hids, _⟩ | ⟨_, hids, _⟩
      · simpa [applyOp, closeModal, hids, hframe] using hnd
      · have : idsOf (applyOp st (AtlasOp.editOp i form now nowIso)).memories
            = idsOf st.memories ++ [now] := by
          simpa [applyOp, closeModal, hframe] using hids
        rw [this]
        exact hnd.append (List.nodup_singleton now)
          (fun a ha hb => hsafe ((List.mem_singleton.mp hb) ▸ ha))
    | deleteOp i confirmed =>
      have hframe : (showMemoryDetail st i).memories = st.memories :=
        (showMemoryDetail_frame st i).1
      rcases deleteMemory_chars (showMemoryDetail st i) confirmed with
        ⟨hmem, _⟩ | ⟨orig, l1, l2, hsplit, hmem, _⟩
      · simpa [applyOp, closeDetailModal, hmem, hframe] using hnd
      · have hres : idsOf (applyOp st (AtlasOp.deleteOp i confirmed)).memories
            = idsOf (l1 ++ l2) := by
          simp [applyOp, closeDetailModal, hmem]
        rw [hres]
        have hsub : (l1 ++ l2).Sublist (l1 ++ orig :: l2) := by
          exact List.Sublist.append (List.Sublist.refl l1) (List.sublist_cons_self orig l2)
        have hnd2 : (idsOf (l1 ++ orig :: l2)).Nodup := by
          rw [← hsplit, hframe]
          exact hnd
        exact List.Nodup.sublist
          (by simp [idsOf])
          hnd2
    | importOp imported =>
      have h := (importMemories_chars st imported).1
      simpa [applyOp, h] using hsafe
    | filterOp moodF dateFrom dateTo =>
      have h := (applyFiltersGo_frame moodF dateFrom dateTo st.pins st).1
      simpa [applyOp, applyFilters, h] using hnd
    | clearOp =>
      simpa [applyOp, clearFilters] using hnd

/-- Witness for C3 (amended) at a concrete load and a concrete
safe import step. -/
theorem C3_unique_ids_preserved_witness :
    (idsOf (initState [memOld]).memories).Nodup ∧
      (idsOf (applyOp stTwoRec (AtlasOp.importOp [memOld])).memories).Nodup :=
  ⟨C3_unique_ids_preserved.1 [memOld] (by simp [memOld, idsOf]),
    C3_unique_ids_preserved.2 stTwoRec (AtlasOp.importOp [memOld])
      (by simp [stTwoRec, memOld, memSecond, idsOf])
      (by simp [opSafe, memOld, idsOf])⟩

/-- Broken state reached by importing two records with the same id and
then deleting through that id, for the C10 counterexample. -/
def stBrokenPins : AtlasState :=
  applyOp (applyOp (initState []) (AtlasOp.importOp [memDupA, memDupB]))
    (AtlasOp.deleteOp 1 true)

/-- C10 counterexample: after importing two records that share id 1 and
deleting id 1 (a reachable two-step sequence), the `delete` removed the
single cached marker key and only the FIRST record with id 1, so a
record with id 1 remains while the marker cache no longer has the key:
the key set does not equal the id set. -/
theorem C10_counterexample :
    1 ∈ idsOf stBrokenPins.memories ∧ 1 ∉ stBrokenPins.pins := by
  decide

/-- C10 (amended): the marker-cache keys always form a de-duplicated
subset of the collection's ids — the freshly loaded state satisfies
this, every user-level operation preserves it, and the subset inclusion
is exactly what makes the per-marker record lookup of `applyFilters`
always succeed (no crash).  Equality of key set and id set can fail in
reachable states (see the counterexample), but only in the direction of
missing keys, never dangling ones. -/
theorem C10_pins_subset_invariant :
    (∀ stored : List Memory, pinsWellFormed (initState stored)) ∧
    (∀ (st : AtlasState) (op : AtlasOp), pinsWellFormed st →
      pinsWellFormed (applyOp st op)) ∧
    (∀ (st : AtlasState) (moodF dateFrom dateTo : String),
      (∀ j ∈ st.pins, j ∈ idsOf st.memories) →
      ∃ stOut, applyFilters st moodF dateFrom dateTo
        = FilterResult.done stOut) := by
  refine ⟨?_, ?_, ?_⟩
  · intro stored
    unfold initState loadMemories
    rw [loadMemoriesGo_spec]
    constructor
    · exact nodup_foldl_keyInsert _ _ (List.nodup_nil)
    · intro j hj
      have := (mem_foldl_keyInsert (idsOf stored) [] j).mp hj
      simpa using this
  · intro st op hwf
    obtain ⟨hpnd, hpsub⟩ := hwf
    cases op with
    | createOp la ln form now nowIso =>
      have hframe : (createMemoryAt st la ln).memories = st.memories := rfl
      have hfp : (createMemoryAt st la ln).pins = st.pins := rfl
      rcases saveMemory_ids_pins (createMemoryAt st la ln) form now nowIso with
        ⟨hids, hpins⟩ | ⟨_, hids, hpins⟩
      · constructor
        · simpa [applyOp, closeModal, hpins, hfp] using hpnd
        · intro j hj
          rw [show (applyOp st (AtlasOp.createOp la ln form now nowIso)).pins
              = st.pins from by simp [applyOp, closeModal, hpins, hfp]] at hj
          have := hpsub j hj
          rw [show idsOf (applyOp st (AtlasOp.createOp la ln form now nowIso)).memories
              = idsOf st.memories from by simp [applyOp, closeModal, hids, hframe]]
          exact this
      · constructor
        · rw [show (applyOp st (AtlasOp.createOp la ln form now nowIso)).pins
              = keyInsert st.pins now from by simp [applyOp, closeModal, hpins, hfp]]
          exact nodup_keyInsert now hpnd
        · intro j hj
          rw [show (applyOp st (AtlasOp.createOp la ln form now nowIso)).pins
              = keyInsert st.pins now from by simp [applyOp, closeModal, hpins, hfp]] at hj
          rw [show idsOf (applyOp st (AtlasOp.createOp la ln form now nowIso)).memories
              = idsOf st.memories ++ [now] from by simp [applyOp, closeModal, hids, hframe]]
          rcases mem_keyInsert.mp hj with h | rfl
          · exact List.mem_append_left _ (hpsub j h)
          · exact List.mem_append_right _ (by simp)
    | editOp i form now nowIso =>
      have hframe : (editMemory (showMemoryDetail st i)).memories = st.memories := by
        rw [(editMemory_frame (showMemoryDetail st i)).1,
          (showMemoryDetail_frame st i).1]
      have hfp : (editMemory (showMemoryDetail st i)).pins = st.pins := by
        rw [(editMemory_frame (showMemoryDetail st i)).2.1,
          (showMemoryDetail_frame st i).2.1]
      rcases saveMemory_ids_pins (editMemory (showMemoryDetail st i)) form now nowIso with
        ⟨hids, hpins⟩ | ⟨_, hids, hpins⟩
      · constructor
        · simpa [applyOp, closeModal, hpins, hfp] using hpnd
        · intro j hj
          rw [show (applyOp st (AtlasOp.editOp i form now nowIso)).pins
              = st.pins from by simp [applyOp, closeModal, hpins, hfp]] at hj
          rw [show idsOf (applyOp st (AtlasOp.editOp i form now nowIso)).memories
              = idsOf st.memories from by simp [applyOp, closeModal, hids, hframe]]
          exact hpsub j hj
      · constructor
        · rw [show (applyOp st (AtlasOp.editOp i form now nowIso)).pins
              = keyInsert st.pins now from by simp [applyOp, closeModal, hpins, hfp]]
          exact nodup_keyInsert now hpnd
        · intro j hj
          rw [show (applyOp st (AtlasOp.editOp i form now nowIso)).pins
              = keyInsert st.pins now from by simp [applyOp, closeModal, hpins, hfp]] at hj
          rw [show idsOf (applyOp st (AtlasOp.editOp i form now nowIso)).memories
              = idsOf st.memories ++ [now] from by simp [applyOp, closeModal, hids, hframe]]
          rcases mem_keyInsert.mp hj with h | rfl
          · exact List.mem_append_left _ (hpsub j h)
          · exact List.mem_append_right _ (by simp)
    | deleteOp i confirmed =>
      have hframe : (showMemoryDetail st i).memories = st.memories :=
        (showMemoryDetail_frame st i).1
      have hfp : (showMemoryDetail st i).pins = st.pins :=
        (showMemoryDetail_frame st i).2.1
      rcases deleteMemory_chars (showMemoryDetail st i) confirmed with
        ⟨hmem, hpins⟩ | ⟨orig, l1, l2, hsplit, hmem, hpins⟩
      · constructor
        · simpa [applyOp, closeDetailModal, hpins, hfp] using hpnd
        · intro j hj
          rw [show (applyOp st (AtlasOp.deleteOp i confirmed)).pins
              = st.pins from by simp [applyOp, closeDetailModal, hpins, hfp]] at hj
          rw [show idsOf (applyOp st (AtlasOp.deleteOp i confirmed)).memories
              = idsOf st.memories from by simp [applyOp, closeDetailModal, hmem, hframe]]
          exact hpsub j hj
      · have hsplit' : st.memories = l1 ++ orig :: l2 := by
          rw [← hframe]
          exact hsplit
        constructor
        · rw [show (applyOp st (AtlasOp.deleteOp i confirmed)).pins
              = st.pins.erase orig.id from by
                simp [applyOp, closeDetailModal, hpins, hfp]]
          exact hpnd.erase orig.id
        · intro j hj
          rw [show (applyOp st (AtlasOp.deleteOp i confirmed)).pins
              = st.pins.erase orig.id from by
                simp [applyOp, closeDetailModal, hpins, hfp]] at hj
          rw [show idsOf (applyOp st (AtlasOp.deleteOp i confirmed)).memories
              = idsOf (l1 ++ l2) from by simp [applyOp, closeDetailModal, hmem]]
          obtain ⟨hne, hjp⟩ := (List.Nodup.mem_erase_iff hpnd).mp hj
          have hjids : j ∈ idsOf st.memories := hpsub j hjp
          rw [hsplit'] at hjids
          simp only [idsOf, List.map_append, List.map_cons, List.mem_append,
            List.mem_cons] at hjids
          simp only [idsOf, List.map_append, List.mem_append]
          rcases hjids with h | h | h
          · exact Or.inl h
          · exact absurd h hne
          · exact Or.inr h
    | importOp imported =>
      obtain ⟨hmem, hpins⟩ := importMemories_chars st imported
      constructor
      · rw [show (applyOp st (AtlasOp.importOp imported)).pins
            = (idsOf imported).foldl keyInsert [] from hpins]
        exact nodup_foldl_keyInsert _ _ List.nodup_nil
      · intro j hj
        rw [show (applyOp st (AtlasOp.importOp imported)).pins
            = (idsOf imported).foldl keyInsert [] from hpins] at hj
        rw [show idsOf (applyOp st (AtlasOp.importOp imported)).memories
            = idsOf imported from by rw [show (applyOp st (AtlasOp.importOp imported)).memories
              = imported from hmem]]
        have := (mem_foldl_keyInsert (idsOf imported) [] j).mp hj
        simpa using this
    | filterOp moodF dateFrom dateTo =>
      obtain ⟨hmem, hpins⟩ := applyFiltersGo_frame moodF dateFrom dateTo st.pins st
      constructor
      · simpa [applyOp, applyFilters, hpins] using hpnd
      · intro j hj
        rw [show (applyOp st (AtlasOp.filterOp moodF dateFrom dateTo)).pins
            = st.pins from by simpa [applyOp, applyFilters] using hpins] at hj
        rw [show idsOf (applyOp st (AtlasOp.filterOp moodF dateFrom dateTo)).memories
            = idsOf st.memories from by simp [applyOp, applyFilters, hmem]]
        exact hpsub j hj
    | clearOp =>
      constructor
      · simpa [applyOp, clearFilters] using hpnd
      · intro j hj
        simp only [applyOp, clearFilters] at hj ⊢
        exact hpsub j hj
  · intro st moodF dateFrom dateTo hsub
    exact applyFiltersGo_done moodF dateFrom dateTo st.pins st hsub

/-- Witness for C10 (amended) at concrete states. -/
theorem C10_pins_subset_invariant_witness :
    pinsWellFormed (initState [memOld]) ∧
      pinsWellFormed (applyOp stTwoRec AtlasOp.clearOp) ∧
      ∃ stOut, applyFilters stTwoRec "" "" "" = FilterResult.done stOut :=
  ⟨C10_pins_subset_invariant.1 [memOld],
    C10_pins_subset_invariant.2.1 stTwoRec AtlasOp.clearOp
      (by constructor
          · simp [stTwoRec]
          · intro j hj
            simp only [stTwoRec, List.mem_cons, List.not_mem_nil, or_false] at hj
            rcases hj with rfl | rfl <;>
              simp [stTwoRec, memOld, memSecond, idsOf]),
    C10_pins_subset_invariant.2.2 stTwoRec "" "" ""
      (by intro j hj
          simp only [stTwoRec, List.mem_cons, List.not_mem_nil, or_false] at hj
          rcases hj with rfl | rfl <;>
            simp [stTwoRec, memOld, memSecond, idsOf])⟩

end LifeAtlas
